import Mathlib

/-!
# Verification of the resilient cache client

Shallow embedding of the `ResilientCacheClient` (source file
`src/unnamed/part_004`, identified by its exports as
`src/ResilientCacheClient.ts`), its pure helpers, and the store-level
semantics of its command bodies, together with the `MockCacheClient`
prefix deletion (`src/src/MockCacheClient.ts`).

Conventions of the embedding:
 - machine time (`Date.now()`) is a `Nat` parameter `now`;
 - the external driver (ioredis) is an oracle: each embedded operation
   takes the outcome the driver would produce (`ConnectOutcome` for
   `connect`, `CmdOutcome` for a command body) and returns, besides its
   result and the successor client state, the list of network
   interactions that were performed (`NetEvent`), so that theorems can
   assert that no network call happens;
 - JavaScript values that can be stored in the cache are modelled by
   `JsonValue` (JSON numbers restricted to integers); the platform pair
   `JSON.stringify` / `JSON.parse` is modelled by an executable
   stringifier and parser over that type, paired with `jsonAccepts`,
   an executable model of the full acceptance grammar of `JSON.parse`
   (whitespace, fraction and exponent numbers, string escapes, no
   leading zeros); the parser computes values on the canonical
   fragment the stringifier produces and is proved to succeed only on
   strings `jsonAccepts` accepts, so theorem hypotheses about strings
   the platform does not parse are stated with `jsonAccepts`;
 - JavaScript `Error` objects are modelled by `JsError` (name, message,
   optional `code`), and the thrown/returned behaviour of an operation
   by `Except CacheErr`.
-/

namespace ResilientCache

/-! ## JSON values: the model of the JavaScript value/JSON layer -/

/-- A JSON value; the value space handled by `serialize` /
`JSON.parse` / `sanitizeParsedValue` in the source.  Numbers are
modelled as integers. -/
inductive JsonValue where
  | str (s : String)
  | num (n : Int)
  | bool (b : Bool)
  | null
  | obj (fields : List (String × JsonValue))
  | arr (items : List JsonValue)
deriving Repr

/-- Decimal digit to its character. -/
def digitChar (d : Nat) : Char :=
  match d with
  | 0 => '0' | 1 => '1' | 2 => '2' | 3 => '3' | 4 => '4'
  | 5 => '5' | 6 => '6' | 7 => '7' | 8 => '8' | _ => '9'

/-- Numeric value of a decimal digit character. -/
def digitVal (c : Char) : Nat := c.toNat - 48

/-- Decimal rendering of a natural number, most significant digit
first (as `JSON.stringify` renders a non-negative integer). -/
def natChars (n : Nat) : List Char :=
  if n = 0 then ['0'] else ((Nat.digits 10 n).reverse.map digitChar)

/-- Decimal rendering of an integer. -/
def intChars (i : Int) : List Char :=
  if i < 0 then '-' :: natChars i.natAbs else natChars i.toNat

/-- Lower-case hexadecimal digit character, as `JSON.stringify` prints
the `\u00XX` escapes. -/
def hexDigitChar (n : Nat) : Char :=
  match n with
  | 0 => '0' | 1 => '1' | 2 => '2' | 3 => '3' | 4 => '4'
  | 5 => '5' | 6 => '6' | 7 => '7' | 8 => '8' | 9 => '9'
  | 10 => 'a' | 11 => 'b' | 12 => 'c' | 13 => 'd' | 14 => 'e' | _ => 'f'

/-- JSON string escaping of one character, as `JSON.stringify`
produces it: quote and backslash get a backslash escape, the named
control characters their short escapes, the remaining control
characters a `\u00XX` escape, and every other character is emitted
raw. -/
def escChar (c : Char) : List Char :=
  if c = '"' ∨ c = '\\' then ['\\', c]
  else if c = '\x08' then ['\\', 'b']
  else if c = '\t' then ['\\', 't']
  else if c = '\n' then ['\\', 'n']
  else if c = '\x0c' then ['\\', 'f']
  else if c = '\x0d' then ['\\', 'r']
  else if c.toNat < 32 then
    '\\' :: 'u' :: '0' :: '0' :: [hexDigitChar (c.toNat / 16), hexDigitChar (c.toNat % 16)]
  else [c]

/-- JSON string escaping of a character list. -/
def escChars : List Char → List Char
  | [] => []
  | c :: cs => escChar c ++ escChars cs

mutual

/-- `JSON.stringify`, producing a character list. -/
def jsonChars : JsonValue → List Char
  | .null => 'n' :: 'u' :: 'l' :: ['l']
  | .bool true => 't' :: 'r' :: 'u' :: ['e']
  | .bool false => 'f' :: 'a' :: 'l' :: 's' :: ['e']
  | .num i => intChars i
  | .str s => '"' :: (escChars s.data ++ ['"'])
  | .arr [] => ['[', ']']
  | .arr (v :: vs) => '[' :: (jsonChars v ++ arrTailChars vs ++ [']'])
  | .obj [] => ['\x7b', '\x7d']
  | .obj (f :: fs) => '\x7b' :: (fieldChars f ++ objTailChars fs ++ ['\x7d'])

/-- Continuation of an array rendering: `,` then the element, for each
remaining element. -/
def arrTailChars : List JsonValue → List Char
  | [] => []
  | v :: vs => ',' :: (jsonChars v ++ arrTailChars vs)

/-- Rendering of one object field: quoted key, colon, value. -/
def fieldChars : String × JsonValue → List Char
  | (k, v) => '"' :: (escChars k.data ++ '"' :: ':' :: jsonChars v)

/-- Continuation of an object rendering: `,` then the field, for each
remaining field. -/
def objTailChars : List (String × JsonValue) → List Char
  | [] => []
  | f :: fs => ',' :: (fieldChars f ++ objTailChars fs)

end

/-- `JSON.stringify` as a `String` function. -/
def stringifyJson (v : JsonValue) : String := String.mk (jsonChars v)

/-- Is `c` a hexadecimal digit, in either case? -/
def isHexDigit (c : Char) : Bool :=
  c.isDigit || ('a' ≤ c && c ≤ 'f') || ('A' ≤ c && c ≤ 'F')

/-- Numeric value of a hexadecimal digit character. -/
def hexVal (c : Char) : Nat :=
  if c.isDigit then c.toNat - 48
  else if 'a' ≤ c && c ≤ 'f' then c.toNat - 87
  else c.toNat - 55

/-- Decoding of a single-character JSON string escape; anything
outside the eight escapes of the JSON grammar is not valid. -/
def unescape1 (e : Char) : Option Char :=
  if e = '"' then some '"'
  else if e = '\\' then some '\\'
  else if e = '/' then some '/'
  else if e = 'b' then some '\x08'
  else if e = 'f' then some '\x0c'
  else if e = 'n' then some '\n'
  else if e = 'r' then some '\x0d'
  else if e = 't' then some '\t'
  else none

/-- The body of a JSON string literal: characters up to the closing
quote, undoing escapes per the JSON grammar.  `\uXXXX` decodes to the
character with that code (a code that is no Lean scalar value, i.e. a
surrogate half, decodes to the default of `Char.ofNat`; such escapes
are excluded from every theorem through the `jsonAccepts` guards).
Unescaped control characters and invalid escapes fail, as under
`JSON.parse`.  Returns the decoded characters and the input remaining
after the closing quote. -/
def parseStrBody : List Char → Option (List Char × List Char)
  | [] => none
  | c :: rest =>
    if c = '"' then some ([], rest)
    else if c = '\\' then
      match rest with
      | [] => none
      | e :: rest2 =>
        if e = 'u' then
          match rest2 with
          | h1 :: h2 :: h3 :: h4 :: rest3 =>
            if isHexDigit h1 && isHexDigit h2 && isHexDigit h3 && isHexDigit h4 then
              (parseStrBody rest3).map fun p =>
                (Char.ofNat (((hexVal h1 * 16 + hexVal h2) * 16 + hexVal h3) * 16
                  + hexVal h4) :: p.1, p.2)
            else none
          | _ => none
        else
          (unescape1 e).bind fun d =>
            (parseStrBody rest2).map fun p => (d :: p.1, p.2)
    else if c.toNat < 32 then none
    else (parseStrBody rest).map fun p => (c :: p.1, p.2)

/-- Maximal run of decimal digits, as a number.  Fails on an empty
run.  (A helper of the number rule; JSON rejection of leading zeros
lives in `parseIntDigits`.) -/
def parseNatChars (cs : List Char) : Option (Nat × List Char) :=
  let ds := cs.takeWhile Char.isDigit
  if ds = [] then none
  else some (ds.foldl (fun acc c => 10 * acc + digitVal c) 0, cs.dropWhile Char.isDigit)

/-- The integer part of a JSON number literal: a single `0`, or a
nonzero digit starting the maximal digit run.  JSON rejects leading
zeros, so after a `0` no further digit is consumed - a following digit
then makes the whole parse fail at the continuation check, exactly as
`JSON.parse` rejects `0123`. -/
def parseIntDigits (cs : List Char) : Option (Nat × List Char) :=
  if cs.take 1 = ['0'] then some (0, cs.drop 1) else parseNatChars cs

mutual

/-- Fuel-bounded JSON value parser: the model of `JSON.parse` on the
canonical fragment (no inter-token whitespace, integer numbers), which
covers everything the stringifier produces.  On other inputs it may
fail where `JSON.parse` succeeds (whitespace, fraction or exponent
numbers), but it never succeeds where `JSON.parse` fails: `jsonAccepts`
below models the full acceptance grammar of `JSON.parse`, and
`jsonAccepts_of_parseJson` proves the inclusion. -/
def parseVal : Nat → List Char → Option (JsonValue × List Char)
  | 0, _ => none
  | fuel + 1, cs =>
    match cs with
    | [] => none
    | c :: rest =>
      if c.isDigit then
        (parseIntDigits (c :: rest)).map fun p => (.num (p.1 : Int), p.2)
      else if c = '-' then
        (parseIntDigits rest).map fun p => (.num (-(p.1 : Int)), p.2)
      else if c = 'n' then
        if rest.take 3 = ['u', 'l', 'l'] then some (.null, rest.drop 3) else none
      else if c = 't' then
        if rest.take 3 = ['r', 'u', 'e'] then some (.bool true, rest.drop 3) else none
      else if c = 'f' then
        if rest.take 4 = ['a', 'l', 's', 'e'] then some (.bool false, rest.drop 4)
        else none
      else if c = '"' then
        (parseStrBody rest).map fun p => (.str (String.mk p.1), p.2)
      else if c = '[' then
        if rest.take 1 = [']'] then some (.arr [], rest.drop 1)
        else (parseArrItems fuel rest).map fun p => (.arr p.1, p.2)
      else if c = '\x7b' then
        if rest.take 1 = ['\x7d'] then some (.obj [], rest.drop 1)
        else (parseObjItems fuel rest).map fun p => (.obj p.1, p.2)
      else none

/-- One or more comma-separated array elements followed by `]`. -/
def parseArrItems : Nat → List Char → Option (List JsonValue × List Char)
  | 0, _ => none
  | fuel + 1, cs =>
    (parseVal fuel cs).bind fun p =>
      if p.2.take 1 = [','] then
        (parseArrItems fuel (p.2.drop 1)).map fun q => (p.1 :: q.1, q.2)
      else if p.2.take 1 = [']'] then some ([p.1], p.2.drop 1)
      else none

/-- One or more comma-separated object fields followed by the closing
brace. -/
def parseObjItems : Nat → List Char → Option (List (String × JsonValue) × List Char)
  | 0, _ => none
  | fuel + 1, cs =>
    match cs with
    | [] => none
    | c :: rest =>
      if c = '"' then
        (parseStrBody rest).bind fun pk =>
          if pk.2.take 1 = [':'] then
            (parseVal fuel (pk.2.drop 1)).bind fun pv =>
              if pv.2.take 1 = [','] then
                (parseObjItems fuel (pv.2.drop 1)).map fun q =>
                  ((String.mk pk.1, pv.1) :: q.1, q.2)
              else if pv.2.take 1 = ['\x7d'] then
                some ([(String.mk pk.1, pv.1)], pv.2.drop 1)
              else none
          else none
      else none

end

/-- `JSON.parse`: parse the whole string as one JSON value.  The fuel
`2 * length + 2` dominates the recursion depth on every input. -/
def parseJson (s : String) : Option JsonValue :=
  match parseVal (2 * s.length + 2) s.data with
  | some (v, []) => some v
  | _ => none

/-- Is the head of the remaining input (if any) a non-digit?  The
continuation condition under which a rendered number is parsed back
exactly. -/
def headNotDigit : List Char → Bool
  | [] => true
  | c :: _ => !c.isDigit

/-! ### The acceptance grammar of `JSON.parse`

`parseVal` computes values only on the canonical fragment; the checker
below models exactly which strings `JSON.parse` accepts (whitespace
around every token, the full number grammar with fractions and
exponents but no leading zeros, the exact string-escape rules).  It
computes no value - a fraction is no integer - but it is the faithful
acceptance test, and `jsonAccepts_of_parseJson` proves that whatever
`parseVal` parses, the checker accepts. -/

/-- Is `c` one of the four JSON whitespace characters? -/
def isJsonWs (c : Char) : Bool :=
  c = ' ' || c = '\t' || c = '\n' || c = '\x0d'

/-- Drop leading JSON whitespace. -/
def skipWs : List Char → List Char
  | [] => []
  | c :: rest => if isJsonWs c then skipWs rest else c :: rest

/-- Nothing at the head of the remaining input may extend a number
literal: no digit, decimal point or exponent marker.  This holds at
every continuation the parser produces (a comma, a closing bracket or
brace, end of input). -/
def numBoundaryOk : List Char → Bool
  | [] => true
  | c :: _ => !(c.isDigit || c = '.' || c = 'e' || c = 'E')

/-- Integer part of the JSON number grammar (`0 | [1-9][0-9]*`),
remainder only. -/
def chkIntPart (cs : List Char) : Option (List Char) :=
  if cs.take 1 = ['0'] then some (cs.drop 1)
  else (parseNatChars cs).map fun p => p.2

/-- Optional fraction part of the JSON number grammar (`. [0-9]+`). -/
def chkFracPart (cs : List Char) : Option (List Char) :=
  if cs.take 1 = ['.'] then (parseNatChars (cs.drop 1)).map fun p => p.2
  else some cs

/-- Optional exponent part of the JSON number grammar
(`[eE] [+-]? [0-9]+`). -/
def chkExpPart (cs : List Char) : Option (List Char) :=
  if cs.take 1 = ['e'] ∨ cs.take 1 = ['E'] then
    (parseNatChars (if (cs.drop 1).take 1 = ['+'] ∨ (cs.drop 1).take 1 = ['-']
      then (cs.drop 1).drop 1 else cs.drop 1)).map fun p => p.2
  else some cs

/-- A complete JSON number after the optional minus sign. -/
def chkNumber (cs : List Char) : Option (List Char) :=
  (chkIntPart cs).bind fun r1 => (chkFracPart r1).bind chkExpPart

/-- A JSON string-literal body per the grammar `JSON.parse` enforces,
after the opening quote: raw characters above `0x1f` except quote and
backslash, the eight single-character escapes, and `\uXXXX` with four
hex digits (surrogate halves included, as in JavaScript). -/
def chkStrBody : List Char → Option (List Char)
  | [] => none
  | c :: rest =>
    if c = '"' then some rest
    else if c = '\\' then
      match rest with
      | [] => none
      | e :: rest2 =>
        if e = 'u' then
          match rest2 with
          | h1 :: h2 :: h3 :: h4 :: rest3 =>
            if isHexDigit h1 && isHexDigit h2 && isHexDigit h3 && isHexDigit h4 then
              chkStrBody rest3
            else none
          | _ => none
        else if (unescape1 e).isSome then chkStrBody rest2
        else none
    else if c.toNat < 32 then none
    else chkStrBody rest

mutual

/-- One JSON value per the full grammar of `JSON.parse`, leading
whitespace already skipped: the remainder after the value, or `none`
if the input is not valid JSON. -/
def chkVal : Nat → List Char → Option (List Char)
  | 0, _ => none
  | fuel + 1, cs =>
    match cs with
    | [] => none
    | c :: rest =>
      if c.isDigit then chkNumber (c :: rest)
      else if c = '-' then chkNumber rest
      else if c = 'n' then
        if rest.take 3 = ['u', 'l', 'l'] then some (rest.drop 3) else none
      else if c = 't' then
        if rest.take 3 = ['r', 'u', 'e'] then some (rest.drop 3) else none
      else if c = 'f' then
        if rest.take 4 = ['a', 'l', 's', 'e'] then some (rest.drop 4) else none
      else if c = '"' then chkStrBody rest
      else if c = '[' then
        if (skipWs rest).take 1 = [']'] then some ((skipWs rest).drop 1)
        else chkArrItems fuel (skipWs rest)
      else if c = '\x7b' then
        if (skipWs rest).take 1 = ['\x7d'] then some ((skipWs rest).drop 1)
        else chkObjItems fuel (skipWs rest)
      else none

/-- One or more comma-separated array elements followed by `]`, with
whitespace around the separators. -/
def chkArrItems : Nat → List Char → Option (List Char)
  | 0, _ => none
  | fuel + 1, cs =>
    (chkVal fuel cs).bind fun r =>
      if (skipWs r).take 1 = [','] then chkArrItems fuel (skipWs ((skipWs r).drop 1))
      else if (skipWs r).take 1 = [']'] then some ((skipWs r).drop 1)
      else none

/-- One or more comma-separated object fields followed by the closing
brace, with whitespace around the separators. -/
def chkObjItems : Nat → List Char → Option (List Char)
  | 0, _ => none
  | fuel + 1, cs =>
    match cs with
    | [] => none
    | c :: rest =>
      if c = '"' then
        (chkStrBody rest).bind fun rk =>
          if (skipWs rk).take 1 = [':'] then
            (chkVal fuel (skipWs ((skipWs rk).drop 1))).bind fun rv =>
              if (skipWs rv).take 1 = [','] then
                chkObjItems fuel (skipWs ((skipWs rv).drop 1))
              else if (skipWs rv).take 1 = ['\x7d'] then some ((skipWs rv).drop 1)
              else none
          else none
      else none

end

/-- Does `JSON.parse` accept the string?  The model of the full
grammar the platform enforces: optional whitespace around the single
top-level value and between tokens, the complete number grammar
(leading zeros rejected, fractions and exponents accepted), and the
exact string-escape rules.  The fuel `2 * length + 2` dominates the
recursion depth on every input, as for `parseVal`. -/
def jsonAccepts (s : String) : Bool :=
  match chkVal (2 * s.length + 2) (skipWs s.data) with
  | some rest => (skipWs rest).isEmpty
  | none => false

mutual

/-- Fuel bound sufficient for `parseVal` on a rendered value. -/
def sizeJ : JsonValue → Nat
  | .arr items => 1 + sizeItems items
  | .obj fields => 1 + sizeFields fields
  | _ => 1

/-- Fuel bound sufficient for `parseArrItems` on rendered elements. -/
def sizeItems : List JsonValue → Nat
  | [] => 0
  | v :: vs => 1 + sizeJ v + sizeItems vs

/-- Fuel bound sufficient for `parseObjItems` on rendered fields. -/
def sizeFields : List (String × JsonValue) → Nat
  | [] => 0
  | f :: fs => 1 + sizeJ f.2 + sizeFields fs

end

/-! ## Pure helpers of the client (from `src/unnamed/part_004`) -/

/-- `serialize` (line 787): strings are stored raw, any other value is
stringified. -/
def serialize (value : JsonValue) : String :=
  match value with
  | .str s => s
  | v => stringifyJson v

mutual

/-- `sanitizeParsedValue` (lines 794-813): recursively drop the keys
`__proto__`, `constructor`, `prototype` from parsed objects. -/
def sanitizeParsedValue : JsonValue → JsonValue
  | .arr items => .arr (sanitizeItems items)
  | .obj fields => .obj (sanitizeFields fields)
  | v => v

/-- Element-wise sanitization of an array. -/
def sanitizeItems : List JsonValue → List JsonValue
  | [] => []
  | v :: vs => sanitizeParsedValue v :: sanitizeItems vs

/-- Field-wise sanitization of an object, dropping dangerous keys. -/
def sanitizeFields : List (String × JsonValue) → List (String × JsonValue)
  | [] => []
  | (k, v) :: fs =>
    if k = "__proto__" ∨ k = "constructor" ∨ k = "prototype" then
      sanitizeFields fs
    else
      (k, sanitizeParsedValue v) :: sanitizeFields fs

end

/-- The read-side decoding in `get` / `getMany` (lines 251-257): try
`JSON.parse`; on success sanitize the parsed value, otherwise return
the raw string.  `parseJson` models `JSON.parse` on the canonical
fragment only (a fraction is no integer), so theorems about stored
strings carry a `jsonAccepts` guard - on a string the grammar rejects,
`JSON.parse` throws and the parser fails too (the inclusion
`jsonAccepts_of_parseJson`), and both sides keep the raw string; on a
canonical `stringifyJson` output both succeed with the same value
(`parseJson_stringify`). -/
def deserializeStored (stored : String) : JsonValue :=
  match parseJson stored with
  | some parsed => sanitizeParsedValue parsed
  | none => .str stored

/-! ## Errors (from `src/errors.ts`, `src/unnamed/part_005`) -/

/-- A JavaScript `Error` as the driver and the client observe it:
`name`, `message` and the optional system `code` consulted by
`isConnectionError`. -/
structure JsError where
  name : String := "Error"
  message : String
  code : Option String := none
deriving Repr, DecidableEq

/-- Does `hay` start with `pat`? (JavaScript `String.startsWith` on
character lists.) -/
def startsWithChars : List Char → List Char → Bool
  | _, [] => true
  | [], _ :: _ => false
  | c :: cs, p :: ps => c = p && startsWithChars cs ps

/-- Does `hay` contain `pat` as a contiguous substring? (JavaScript
`String.includes`.) -/
def containsChars (hay pat : List Char) : Bool :=
  match hay with
  | [] => pat.isEmpty
  | _ :: cs => startsWithChars hay pat || containsChars cs pat

/-- `String.includes` on strings. -/
def strIncludes (hay pat : String) : Bool := containsChars hay.data pat.data

/-- The typed faults an operation can raise, and the local validation
faults (`TypeError` / `Error`); `driverError` is a raw driver error
surfacing unchanged (the source never produces it from
`executeCommand`, see claim C3). -/
inductive CacheErr where
  | typeError (message : String)
  | plainError (message : String)
  | timeout (operation : String) (timeoutMs : Nat)
  | unavailable (message : String) (cause : Option JsError) (operation : String)
  | driverError (e : JsError)
deriving Repr, DecidableEq

/-- The `CacheTimeoutError` built by `createTimeoutWithCleanup`
(lines 733-747) as a JavaScript error object: it carries no system
`code`. -/
def cacheTimeoutJsError (operation : String) (timeoutMs : Nat) : JsError :=
  { name := "CacheTimeoutError"
    message := "Cache operation \x27" ++ operation ++ "\x27 timed out after " ++
      toString timeoutMs ++ "ms"
    code := none }

/-! ## Connection state machine (from `src/unnamed/part_004`) -/

/-- `ConnectionState` (`src/types.ts`). -/
inductive ConnState where
  | disconnected
  | connecting
  | connected
  | reconnecting
  | cooldown
  | failed
deriving Repr, DecidableEq

/-- The interpolation of the state into an error message. -/
def connStateName : ConnState → String
  | .disconnected => "disconnected"
  | .connecting => "connecting"
  | .connected => "connected"
  | .reconnecting => "reconnecting"
  | .cooldown => "cooldown"
  | .failed => "failed"

/-- Error-handling mode (`onError`). -/
inductive ErrorMode where
  | graceful
  | throw
deriving Repr, DecidableEq

/-- The resolved constructor options (lines 92-117).  `none` for
`maxReconnectAttempts` models the default `Infinity`. -/
structure ClientOptions where
  host : String
  port : Nat
  password : Option String := none
  connectTimeout : Nat := 1000
  commandTimeout : Nat := 500
  reconnectDelay : Nat := 10000
  maxReconnectAttempts : Option Nat := none
  enableOfflineQueue : Bool := false
  onError : ErrorMode := .graceful
  autoConnect : Bool := true
deriving Repr, DecidableEq

/-- The mutable fields of `ResilientCacheClient` (lines 65-73).
`redisReady` models `this.redis !== null && this.redis.status ===
'ready'`.  Observer callbacks (`stateChangeCallbacks`,
`errorCallbacks`) only notify and never influence the machine (their
exceptions are swallowed), so they are not part of the state. -/
structure ClientState where
  state : ConnState
  lastError : Option JsError := none
  lastConnectedAt : Option Nat := none
  lastSuccessAt : Option Nat := none
  lastFailedAt : Option Nat := none
  reconnectAttempts : Nat := 0
  cooldownEndsAt : Option Nat := none
  redisReady : Bool := false
deriving Repr, DecidableEq

/-- The state of a client that was constructed and never connected. -/
def freshClientState : ClientState := { state := .disconnected }

/-- Network interactions recorded by the embedding: a driver connect
attempt, or a driver command call. -/
inductive NetEvent where
  | connectAttempt
  | commandCall
deriving Repr, DecidableEq

/-- Oracle outcome of one driver `connect()` call. -/
inductive ConnectOutcome where
  | ok
  | fail (e : JsError)
deriving Repr, DecidableEq

/-- Oracle outcome of one driver command body: a result, the timeout
guard firing first, or a driver error. -/
inductive CmdOutcome (α : Type) where
  | ok (value : α)
  | timedOut
  | fail (e : JsError)

/-- `canExecuteCommands` (lines 720-728). -/
def canExecuteCommands (s : ClientState) : Bool :=
  if s.state = .cooldown then false
  else s.state = .connected && s.redisReady

/-- `isConnectionError` (lines 865-885): a known connection error
code, or the ioredis "Connection is closed" message. -/
def isConnectionError (e : JsError) : Bool :=
  (match e.code with
   | some c =>
     ["ECONNREFUSED", "ETIMEDOUT", "ENOTCONN", "ECONNRESET", "EPIPE",
      "EHOSTUNREACH", "ENETUNREACH"].contains c
   | none => false)
  || strIncludes e.message "Connection is closed"

/-- `enterCooldown` (lines 891-894). -/
def enterCooldown (now : Nat) (opts : ClientOptions) (s : ClientState) : ClientState :=
  { s with state := .cooldown, cooldownEndsAt := some (now + opts.reconnectDelay) }

/-- `this.reconnectAttempts >= this.options.maxReconnectAttempts`
(line 844); always false for the default `Infinity`. -/
def maxAttemptsReached (opts : ClientOptions) (attempts : Nat) : Bool :=
  match opts.maxReconnectAttempts with
  | none => false
  | some m => attempts ≥ m

/-- `handleConnectionFailure` (lines 829-851): record the error,
bump `reconnectAttempts`, then go to `failed` if the retry budget is
exhausted, else enter cooldown. -/
def handleConnectionFailure (now : Nat) (opts : ClientOptions) (e : JsError)
    (s : ClientState) : ClientState :=
  let s1 := { s with
    lastError := some e
    lastFailedAt := some now
    reconnectAttempts := s.reconnectAttempts + 1 }
  if maxAttemptsReached opts s1.reconnectAttempts then
    { s1 with state := .failed }
  else
    enterCooldown now opts s1

/-- `handleCommandError` (lines 856-860): only connection-class
errors feed the state machine. -/
def handleCommandError (now : Nat) (opts : ClientOptions) (e : JsError)
    (s : ClientState) : ClientState :=
  if isConnectionError e then handleConnectionFailure now opts e s else s

/-- The bound `error` event handler (lines 79-80). -/
def boundErrorHandler (now : Nat) (opts : ClientOptions) (e : JsError)
    (s : ClientState) : ClientState :=
  handleConnectionFailure now opts e s

/-- The bound `close` event handler (lines 81-85). -/
def boundCloseHandler (now : Nat) (opts : ClientOptions) (s : ClientState) : ClientState :=
  if s.state = .connected then
    handleConnectionFailure now opts { message := "Connection closed" } s
  else s

/-- `doConnect` (lines 144-174): clear cooldown, go to `connecting`,
create the driver handle and connect once.  Returns whether the
connect resolved (the source re-throws on failure; callers catch). -/
def doConnect (now : Nat) (opts : ClientOptions) (out : ConnectOutcome)
    (s : ClientState) : Bool × ClientState × List NetEvent :=
  let s1 := { s with cooldownEndsAt := none, state := .connecting, redisReady := false }
  match out with
  | .ok =>
    (true,
     { s1 with
       state := .connected
       redisReady := true
       lastConnectedAt := some now
       lastSuccessAt := some now
       reconnectAttempts := 0 },
     [.connectAttempt])
  | .fail e =>
    (false, handleConnectionFailure now opts e s1, [.connectAttempt])

/-- `connect` (lines 123-139).  The in-flight promise deduplication is
a concurrency feature; in this sequential embedding a call either
returns at once (already connected) or performs `doConnect`. -/
def connectFn (now : Nat) (opts : ClientOptions) (out : ConnectOutcome)
    (s : ClientState) : Bool × ClientState × List NetEvent :=
  if s.state = .connected then (true, s, [])
  else doConnect now opts out s

/-- `attemptReconnect` (lines 907-924): go to `reconnecting`, drop the
old handle, connect once; on success report `canExecuteCommands`. -/
def attemptReconnect (now : Nat) (opts : ClientOptions) (out : ConnectOutcome)
    (s : ClientState) : Bool × ClientState × List NetEvent :=
  let s1 := { s with state := .reconnecting, redisReady := false }
  let r := connectFn now opts out s1
  if r.1 then (canExecuteCommands r.2.1, r.2.1, r.2.2)
  else (false, r.2.1, r.2.2)

/-- `ensureConnected` (lines 671-715). -/
def ensureConnected (now : Nat) (opts : ClientOptions) (out : ConnectOutcome)
    (s : ClientState) : Bool × ClientState × List NetEvent :=
  if canExecuteCommands s then (true, s, [])
  else if !opts.autoConnect then (false, s, [])
  else if s.state = .cooldown then
    match s.cooldownEndsAt with
    | some e =>
      if now ≥ e then attemptReconnect now opts out s
      else (false, s, [])
    | none => (false, s, [])
  else if s.state = .failed then
    attemptReconnect now opts out { s with reconnectAttempts := 0 }
  else if s.state = .disconnected then
    let r := connectFn now opts out s
    if r.1 then (canExecuteCommands r.2.1, r.2.1, r.2.2)
    else (false, r.2.1, r.2.2)
  else (false, s, [])

/-- `executeCommand` (lines 619-665): gate on connectivity, then run
the command under the timeout guard, classify failures and apply the
graceful/throw policy. -/
def executeCommand {α : Type} (now : Nat) (opts : ClientOptions)
    (callMode : Option ErrorMode) (operation : String) (defaultValue : α)
    (connectOut : ConnectOutcome) (outcome : CmdOutcome α) (s : ClientState) :
    Except CacheErr α × ClientState × List NetEvent :=
  let mode := callMode.getD opts.onError
  let gate :=
    if canExecuteCommands s then (true, s, ([] : List NetEvent))
    else ensureConnected now opts connectOut s
  if gate.1 then
    let s1 := gate.2.1
    let ev := gate.2.2 ++ [NetEvent.commandCall]
    match outcome with
    | .ok v => (.ok v, { s1 with lastSuccessAt := some now }, ev)
    | .timedOut =>
      let e := cacheTimeoutJsError operation opts.commandTimeout
      let s2 := handleCommandError now opts e s1
      (if mode = .throw then .error (.timeout operation opts.commandTimeout)
       else .ok defaultValue, s2, ev)
    | .fail e =>
      let s2 := handleCommandError now opts e s1
      (if mode = .throw then
         .error (.unavailable ("Cache operation \x27" ++ operation ++ "\x27 failed")
           (some e) operation)
       else .ok defaultValue, s2, ev)
  else
    (if mode = .throw then
       .error (.unavailable ("Cache is unavailable (state: " ++
         connStateName gate.2.1.state ++ ")") gate.2.1.lastError operation)
     else .ok defaultValue, gate.2.1, gate.2.2)

/-! ## Input validators (lines 752-782) -/

/-- `validateKey` (lines 752-764): non-empty, at most 512 characters,
no newline or carriage-return characters (`String.includes` is
character containment). -/
def validateKey (key : String) : Except CacheErr Unit :=
  if key.data = [] then
    .error (.typeError "Cache key must be a non-empty string")
  else if key.data.length > 512 then
    .error (.plainError "Cache key exceeds maximum length of 512 characters")
  else if key.data.contains '\n' || key.data.contains '\r' then
    .error (.plainError "Cache key cannot contain newline characters")
  else
    .ok ()

/-- `validateTtl` (lines 769-773): a positive integer.  TTL arguments
are modelled as `Int`, so `Number.isInteger` always holds and only the
positivity check remains. -/
def validateTtl (ttlSeconds : Int) : Except CacheErr Unit :=
  if ttlSeconds ≤ 0 then
    .error (.typeError "ttlSeconds must be a positive integer")
  else
    .ok ()

/-- `validateNumber` (lines 778-782): finiteness.  Numeric arguments
are modelled as `Int`, which is always finite, so this never fails in
the embedding. -/
def validateNumber (_value : Int) (_name : String) : Except CacheErr Unit :=
  .ok ()

/-! ## Public keyed operations: the validation/pipeline layer

Each operation is embedded as: its synchronous validations in source
order, then one `executeCommand` with the operation name and
graceful-mode default the source passes (the command body itself is
the oracle `outcome`). -/

/-- `ping` (lines 226-231). -/
def pingOp (now : Nat) (opts : ClientOptions) (callMode : Option ErrorMode)
    (connectOut : ConnectOutcome) (outcome : CmdOutcome Bool) (s : ClientState) :
    Except CacheErr Bool × ClientState × List NetEvent :=
  executeCommand now opts callMode "ping" false connectOut outcome s

/-- `get` (lines 236-260): default is `defaultValue ?? null`. -/
def getOp (now : Nat) (opts : ClientOptions) (callMode : Option ErrorMode)
    (key : String) (defaultValue : Option JsonValue)
    (connectOut : ConnectOutcome) (outcome : CmdOutcome JsonValue) (s : ClientState) :
    Except CacheErr JsonValue × ClientState × List NetEvent :=
  match validateKey key with
  | .error e => (.error e, s, [])
  | .ok _ =>
    executeCommand now opts callMode "get" (defaultValue.getD .null) connectOut outcome s

/-- `set` (lines 265-284). -/
def setOp (now : Nat) (opts : ClientOptions) (callMode : Option ErrorMode)
    (key : String) (_value : JsonValue) (ttlSeconds : Option Int)
    (connectOut : ConnectOutcome) (outcome : CmdOutcome Bool) (s : ClientState) :
    Except CacheErr Bool × ClientState × List NetEvent :=
  match validateKey key with
  | .error e => (.error e, s, [])
  | .ok _ =>
    match ttlSeconds with
    | some t =>
      match validateTtl t with
      | .error e => (.error e, s, [])
      | .ok _ => executeCommand now opts callMode "set" false connectOut outcome s
    | none => executeCommand now opts callMode "set" false connectOut outcome s

/-- `remove` (lines 289-295). -/
def removeOp (now : Nat) (opts : ClientOptions) (callMode : Option ErrorMode)
    (key : String) (connectOut : ConnectOutcome) (outcome : CmdOutcome Bool)
    (s : ClientState) : Except CacheErr Bool × ClientState × List NetEvent :=
  match validateKey key with
  | .error e => (.error e, s, [])
  | .ok _ => executeCommand now opts callMode "remove" false connectOut outcome s

/-- `removeByPrefix` (lines 300-327): note there is no key validation
on the prefix argument; default is `-1`. -/
def removeByPrefixOp (now : Nat) (opts : ClientOptions) (callMode : Option ErrorMode)
    (_pre : String) (connectOut : ConnectOutcome) (outcome : CmdOutcome Int)
    (s : ClientState) : Except CacheErr Int × ClientState × List NetEvent :=
  executeCommand now opts callMode "removeByPrefix" (-1) connectOut outcome s

/-- `removeAll` (lines 332-337). -/
def removeAllOp (now : Nat) (opts : ClientOptions) (callMode : Option ErrorMode)
    (connectOut : ConnectOutcome) (outcome : CmdOutcome Bool) (s : ClientState) :
    Except CacheErr Bool × ClientState × List NetEvent :=
  executeCommand now opts callMode "removeAll" false connectOut outcome s

/-- `increment` (lines 342-354). -/
def incrementOp (now : Nat) (opts : ClientOptions) (callMode : Option ErrorMode)
    (key : String) (amount : Int) (defaultValue : Int)
    (connectOut : ConnectOutcome) (outcome : CmdOutcome Int) (s : ClientState) :
    Except CacheErr Int × ClientState × List NetEvent :=
  match validateKey key with
  | .error e => (.error e, s, [])
  | .ok _ =>
    match validateNumber amount "amount" with
    | .error e => (.error e, s, [])
    | .ok _ => executeCommand now opts callMode "increment" defaultValue connectOut outcome s

/-- `decrement` (lines 359-371). -/
def decrementOp (now : Nat) (opts : ClientOptions) (callMode : Option ErrorMode)
    (key : String) (amount : Int) (defaultValue : Int)
    (connectOut : ConnectOutcome) (outcome : CmdOutcome Int) (s : ClientState) :
    Except CacheErr Int × ClientState × List NetEvent :=
  match validateKey key with
  | .error e => (.error e, s, [])
  | .ok _ =>
    match validateNumber amount "amount" with
    | .error e => (.error e, s, [])
    | .ok _ => executeCommand now opts callMode "decrement" defaultValue connectOut outcome s

/-- `decrementOrInit` (lines 377-401). -/
def decrementOrInitOp (now : Nat) (opts : ClientOptions) (callMode : Option ErrorMode)
    (key : String) (defaultValue : Int) (ttlSeconds : Int)
    (connectOut : ConnectOutcome) (outcome : CmdOutcome Int) (s : ClientState) :
    Except CacheErr Int × ClientState × List NetEvent :=
  match validateKey key with
  | .error e => (.error e, s, [])
  | .ok _ =>
    match validateNumber defaultValue "defaultValue" with
    | .error e => (.error e, s, [])
    | .ok _ =>
      match validateTtl ttlSeconds with
      | .error e => (.error e, s, [])
      | .ok _ =>
        executeCommand now opts callMode "decrementOrInit" defaultValue connectOut outcome s

/-- `exists` (lines 451-457). -/
def existsOp (now : Nat) (opts : ClientOptions) (callMode : Option ErrorMode)
    (key : String) (connectOut : ConnectOutcome) (outcome : CmdOutcome Bool)
    (s : ClientState) : Except CacheErr Bool × ClientState × List NetEvent :=
  match validateKey key with
  | .error e => (.error e, s, [])
  | .ok _ => executeCommand now opts callMode "exists" false connectOut outcome s

/-- `ttl` (lines 464-470): default is `-2`. -/
def ttlOp (now : Nat) (opts : ClientOptions) (callMode : Option ErrorMode)
    (key : String) (connectOut : ConnectOutcome) (outcome : CmdOutcome Int)
    (s : ClientState) : Except CacheErr Int × ClientState × List NetEvent :=
  match validateKey key with
  | .error e => (.error e, s, [])
  | .ok _ => executeCommand now opts callMode "ttl" (-2) connectOut outcome s

/-- `setIfNotExists` (lines 479-499). -/
def setIfNotExistsOp (now : Nat) (opts : ClientOptions) (callMode : Option ErrorMode)
    (key : String) (_value : JsonValue) (ttlSeconds : Option Int)
    (connectOut : ConnectOutcome) (outcome : CmdOutcome Bool) (s : ClientState) :
    Except CacheErr Bool × ClientState × List NetEvent :=
  match validateKey key with
  | .error e => (.error e, s, [])
  | .ok _ =>
    match ttlSeconds with
    | some t =>
      match validateTtl t with
      | .error e => (.error e, s, [])
      | .ok _ => executeCommand now opts callMode "setIfNotExists" false connectOut outcome s
    | none => executeCommand now opts callMode "setIfNotExists" false connectOut outcome s

/-- Validate a list of keys in order, as the loops in `getMany` /
`setMany` do, stopping at the first failure. -/
def validateKeys : List String → Except CacheErr Unit
  | [] => .ok ()
  | k :: ks =>
    match validateKey k with
    | .error e => .error e
    | .ok _ => validateKeys ks

/-- `getMany` (lines 508-534): the empty key list short-circuits to
`[]` before any validation; default is one `null` per key. -/
def getManyOp (now : Nat) (opts : ClientOptions) (callMode : Option ErrorMode)
    (keys : List String) (connectOut : ConnectOutcome)
    (outcome : CmdOutcome (List JsonValue)) (s : ClientState) :
    Except CacheErr (List JsonValue) × ClientState × List NetEvent :=
  if keys.length = 0 then (.ok [], s, [])
  else
    match validateKeys keys with
    | .error e => (.error e, s, [])
    | .ok _ =>
      executeCommand now opts callMode "getMany" (keys.map fun _ => JsonValue.null)
        connectOut outcome s

/-- `setMany` (lines 545-579): the empty entry list short-circuits to
`true` before key validation and before TTL validation. -/
def setManyOp (now : Nat) (opts : ClientOptions) (callMode : Option ErrorMode)
    (entries : List (String × JsonValue)) (ttlSeconds : Option Int)
    (connectOut : ConnectOutcome) (outcome : CmdOutcome Bool) (s : ClientState) :
    Except CacheErr Bool × ClientState × List NetEvent :=
  if entries.length = 0 then (.ok true, s, [])
  else
    match validateKeys (entries.map Prod.fst) with
    | .error e => (.error e, s, [])
    | .ok _ =>
      match ttlSeconds with
      | some t =>
        match validateTtl t with
        | .error e => (.error e, s, [])
        | .ok _ => executeCommand now opts callMode "setMany" false connectOut outcome s
      | none => executeCommand now opts callMode "setMany" false connectOut outcome s

/-- `expire` (lines 589-600). -/
def expireOp (now : Nat) (opts : ClientOptions) (callMode : Option ErrorMode)
    (key : String) (ttlSeconds : Int) (connectOut : ConnectOutcome)
    (outcome : CmdOutcome Bool) (s : ClientState) :
    Except CacheErr Bool × ClientState × List NetEvent :=
  match validateKey key with
  | .error e => (.error e, s, [])
  | .ok _ =>
    match validateTtl ttlSeconds with
    | .error e => (.error e, s, [])
    | .ok _ => executeCommand now opts callMode "expire" false connectOut outcome s

/-! ## Store-level semantics of the command bodies

The driver store (`StoredEntry` of the spec data model): each live key
maps to a serialized string and an optional absolute expiry instant,
with lazy expiry on read.  The command bodies passed to
`executeCommand` by `get` / `set` / `removeByPrefix` are embedded as
pure functions over this store. -/

/-- One stored entry: serialized value and optional expiry instant
(seconds). -/
structure StoredEntry where
  value : String
  expiresAt : Option Nat := none
deriving Repr, DecidableEq

/-- The driver key space. -/
abbrev Store : Type := List (String × StoredEntry)

/-- The JavaScript test `x === null` on a decoded value. -/
def isNullValue : JsonValue → Bool
  | .null => true
  | _ => false

/-- Driver `GET`: the stored string, unless the key is absent or past
its expiry. -/
def redisGet (now : Nat) (key : String) (st : Store) : Option String :=
  match st.lookup key with
  | none => none
  | some ent =>
    match ent.expiresAt with
    | none => some ent.value
    | some exp => if now < exp then some ent.value else none

/-- Driver `SET` (with optional `EX ttl`): replace the binding. -/
def redisSet (now : Nat) (key : String) (stored : String) (ttlSeconds : Option Int)
    (st : Store) : Store :=
  (key, { value := stored, expiresAt := ttlSeconds.map fun t => now + t.toNat }) ::
    st.filter fun kv => kv.1 ≠ key

/-- The command body of `get` (lines 246-258): driver `GET`, then
`defaultValue ?? null` on a miss, else decode. -/
def getBody (now : Nat) (key : String) (defaultValue : Option JsonValue)
    (st : Store) : JsonValue :=
  match redisGet now key st with
  | none => defaultValue.getD .null
  | some stored => deserializeStored stored

/-- The command body of `set` (lines 276-282): serialize and store,
with the optional TTL; resolves `true`. -/
def setBody (now : Nat) (key : String) (value : JsonValue) (ttlSeconds : Option Int)
    (st : Store) : Bool × Store :=
  (true, redisSet now key (serialize value) ttlSeconds st)

/-- The pattern normalization of `removeByPrefix` (line 303):
`prefix.replace(/:?\x7b0\x7d*$/ ...)` is the regex `:?\*$` — strip one
trailing `*`, together with a `:` right before it when present. -/
def normalizeByPrefixArg (pre : String) : String :=
  let cs := pre.data
  if cs.getLast? = some '*' then
    let cs1 := cs.dropLast
    if cs1.getLast? = some ':' then String.mk cs1.dropLast else String.mk cs1
  else pre

/-- Redis glob matching restricted to `*` and `?` (the patterns built
by `removeByPrefix` are a literal prefix followed by one `*`). -/
def globMatch : List Char → List Char → Bool
  | [], s => s.isEmpty
  | '*' :: ps, s =>
    globMatch ps s ||
      (match s with
       | [] => false
       | _ :: s2 => globMatch ('*' :: ps) s2)
  | '?' :: ps, s =>
    match s with
    | [] => false
    | _ :: s2 => globMatch ps s2
  | p :: ps, s =>
    match s with
    | [] => false
    | c :: s2 => p = c && globMatch ps s2
termination_by ps s => (ps.length, s.length)

/-- The command body of `removeByPrefix` in `ResilientCacheClient`
(lines 301-326): the driver scans every live key against
`normalized ++ "*"` and deletes the matches, accumulating the count
(the incremental cursor of `SCAN` visits every key; the embedding
performs the whole scan in one pass). -/
def removeByPrefixBody (pre : String) (st : Store) : Int × Store :=
  let pattern := (normalizeByPrefixArg pre).data ++ ['*']
  let deleted := st.filter fun kv => globMatch pattern kv.1.data
  (deleted.length, st.filter fun kv => !globMatch pattern kv.1.data)

/-- `MockCacheClient.removeByPrefix` (`src/src/MockCacheClient.ts`
lines 150-166): same normalization, then `String.startsWith` against
the store keys. -/
def mockRemoveByPrefix (pre : String) (st : Store) : Int × Store :=
  let normalized := normalizeByPrefixArg pre
  let deleted := st.filter fun kv => startsWithChars kv.1.data normalized.data
  (deleted.length, st.filter fun kv => !startsWithChars kv.1.data normalized.data)

/-! ## Cache-aside helper (`getOrSet`, lines 412-446)

`getOrSet` forces graceful mode on its inner `get` and `set`; the two
reachable situations of those graceful calls are a healthy
connected/ready client (the calls hit the store) and an unavailable
cache (the calls return their graceful defaults).  `CacheWorld`
captures exactly this alternative. -/

/-- The cache as `getOrSet`'s forced-graceful inner calls observe it. -/
inductive CacheWorld where
  | healthy (st : Store)
  | down
deriving Repr

/-- The forced-graceful `this.get(key, undefined)` of line 424: on a
healthy cache the `get` body runs; when unavailable the graceful
default `undefined ?? null` is returned. -/
def gracefulGet (now : Nat) (key : String) (w : CacheWorld) : JsonValue :=
  match w with
  | .healthy st => getBody now key none st
  | .down => .null

/-- The forced-graceful `this.set(key, value, ttl)` of lines 432/443:
on a healthy cache the `set` body runs; when unavailable the graceful
default `false` is returned and nothing is stored. -/
def gracefulSet (now : Nat) (key : String) (value : JsonValue) (ttlSeconds : Option Int)
    (w : CacheWorld) : Bool × CacheWorld :=
  match w with
  | .healthy st =>
    let r := setBody now key value ttlSeconds st
    (r.1, .healthy r.2)
  | .down => (false, .down)

/-- `getOrSet` (lines 412-446): validations, forced-graceful read; on
hit run the optional staleness validator; on miss (or stale) invoke
the factory, store best-effort, and return the factory value.  The
second component counts factory invocations. -/
def getOrSetRun (now : Nat) (key : String) (factoryValue : JsonValue)
    (ttlSeconds : Option Int) (isValid : Option (JsonValue → Bool)) (w : CacheWorld) :
    Except CacheErr (JsonValue × Nat × CacheWorld) :=
  match validateKey key with
  | .error e => .error e
  | .ok _ =>
    match ttlSeconds with
    | some t =>
      match validateTtl t with
      | .error e => .error e
      | .ok _ => .ok (getOrSetCore now key factoryValue ttlSeconds isValid w)
    | none => .ok (getOrSetCore now key factoryValue ttlSeconds isValid w)
where
  /-- Lines 424-445: the body after validation. -/
  getOrSetCore (now : Nat) (key : String) (factoryValue : JsonValue)
      (ttlSeconds : Option Int) (isValid : Option (JsonValue → Bool)) (w : CacheWorld) :
      JsonValue × Nat × CacheWorld :=
    let cached := gracefulGet now key w
    if !isNullValue cached then
      match isValid with
      | some valid =>
        if valid cached then (cached, 0, w)
        else
          let r := gracefulSet now key factoryValue ttlSeconds w
          (factoryValue, 1, r.2)
      | none => (cached, 0, w)
    else
      let r := gracefulSet now key factoryValue ttlSeconds w
      (factoryValue, 1, r.2)

/-! ## Spec-side predicates (for comparison with the source) -/

/-- Modelled from the spec: a key "containing control characters"
(claim C4, spec §4.3 "free of control characters"); control characters
are the C0 range. -/
def specHasControlChars (key : String) : Bool :=
  key.data.any fun c => c.toNat < 32

/-- The invalid keys the source actually rejects: empty, longer than
512 characters, or containing a newline or carriage-return
character. -/
def badKeyAmended (key : String) : Bool :=
  key.data = [] || key.data.length > 512 ||
    key.data.contains '\n' || key.data.contains '\r'

/-! ## Concrete states and errors used in closed theorems -/

/-- A connected client whose driver handle is ready. -/
def connectedReadyState : ClientState := { state := .connected, redisReady := true }

/-- A driver `WRONGTYPE` reply error (the message format of
`WrongTypeError` in `src/unnamed/part_003`); it carries no system
`code`. -/
def wrongTypeError : JsError :=
  { name := "ReplyError"
    message := "WRONGTYPE Operation against a key holding the wrong kind of value (INCRBY)"
    code := none }

/-- A socket reset error as the driver reports it. -/
def econnResetError : JsError :=
  { message := "read ECONNRESET", code := some "ECONNRESET" }

/-- A connection refusal as the driver reports it. -/
def econnRefusedError : JsError :=
  { message := "connect ECONNREFUSED 127.0.0.1:6379", code := some "ECONNREFUSED" }

/-- A client sitting in cooldown until instant 1000. -/
def cooldownState1000 : ClientState :=
  { state := .cooldown
    lastError := some econnRefusedError
    lastFailedAt := some 900
    reconnectAttempts := 1
    cooldownEndsAt := some 1000 }

/-- Default options at a concrete host/port. -/
def defaultOptions : ClientOptions := { host := "localhost", port := 6379 }

/-- Default options with `autoConnect` disabled. -/
def noAutoConnectOptions : ClientOptions :=
  { host := "localhost", port := 6379, autoConnect := false }

/-! # Theorems -/

/-! ## Shared gate lemmas -/

theorem ensureConnected_noAutoConnect {now : Nat} {opts : ClientOptions}
    {out : ConnectOutcome} {s : ClientState} (hauto : opts.autoConnect = false)
    (hs : canExecuteCommands s = false) :
    ensureConnected now opts out s = (false, s, []) := by
  simp [ensureConnected, hs, hauto]

theorem executeCommand_blocked {α : Type} {now : Nat} {opts : ClientOptions}
    {callMode : Option ErrorMode} {operation : String} {defaultValue : α}
    {connectOut : ConnectOutcome} {outcome : CmdOutcome α} {s s1 : ClientState}
    (hs : canExecuteCommands s = false)
    (hens : ensureConnected now opts connectOut s = (false, s1, [])) :
    executeCommand now opts callMode operation defaultValue connectOut outcome s =
      (if callMode.getD opts.onError = .throw then
         .error (.unavailable ("Cache is unavailable (state: " ++
           connStateName s1.state ++ ")") s1.lastError operation)
       else .ok defaultValue, s1, []) := by
  simp [executeCommand, hs, hens]

/-! ## Claim C5 -/

/-- Claim C5. For a client configured with graceful error mode and
autoConnect disabled that has never connected, every command
short-circuits without touching the network (no events) and returns
exactly the documented sentinel: `get("k","d")` returns `"d"`,
`set("k","v")` returns `false`, `ping()` returns `false`, and
`removeByPrefix("p:")` returns `-1`. -/
theorem c5_graceful_noAutoConnect_sentinels (opts : ClientOptions)
    (hmode : opts.onError = .graceful) (hauto : opts.autoConnect = false)
    (now : Nat) (connectOut : ConnectOutcome) (og : CmdOutcome JsonValue)
    (os : CmdOutcome Bool) (op : CmdOutcome Bool) (orb : CmdOutcome Int) :
    getOp now opts none "k" (some (.str "d")) connectOut og freshClientState =
      (.ok (.str "d"), freshClientState, []) ∧
    setOp now opts none "k" (.str "v") none connectOut os freshClientState =
      (.ok false, freshClientState, []) ∧
    pingOp now opts none connectOut op freshClientState =
      (.ok false, freshClientState, []) ∧
    removeByPrefixOp now opts none "p:" connectOut orb freshClientState =
      (.ok (-1), freshClientState, []) := by
  have hfresh : canExecuteCommands freshClientState = false := rfl
  have hens : ensureConnected now opts connectOut freshClientState =
      (false, freshClientState, []) :=
    ensureConnected_noAutoConnect hauto hfresh
  refine ⟨?_, ?_, ?_, ?_⟩
  · rw [getOp, show validateKey "k" = .ok () from rfl]
    rw [executeCommand_blocked hfresh hens]
    simp [hmode]
  · rw [setOp, show validateKey "k" = .ok () from rfl]
    rw [executeCommand_blocked hfresh hens]
    simp [hmode]
  · rw [pingOp, executeCommand_blocked hfresh hens]
    simp [hmode]
  · rw [removeByPrefixOp, executeCommand_blocked hfresh hens]
    simp [hmode]

/-- Claim C5, witness. The sentinels at a concrete configuration. -/
theorem c5_graceful_noAutoConnect_sentinels_witness :
    ({ host := "localhost", port := 6379, autoConnect := false } : ClientOptions).onError
        = .graceful ∧
    ({ host := "localhost", port := 6379, autoConnect := false } : ClientOptions).autoConnect
        = false ∧
    getOp 7 { host := "localhost", port := 6379, autoConnect := false } none "k"
        (some (.str "d")) .ok (.ok .null) freshClientState =
      (.ok (.str "d"), freshClientState, []) ∧
    pingOp 7 { host := "localhost", port := 6379, autoConnect := false } none .ok
        (.ok true) freshClientState =
      (.ok false, freshClientState, []) := by
  have h := c5_graceful_noAutoConnect_sentinels
    { host := "localhost", port := 6379, autoConnect := false } rfl rfl 7 .ok
    (.ok .null) (.ok true) (.ok true) (.ok 0)
  exact ⟨rfl, rfl, h.1, h.2.2.1⟩

/-! ## Claim C10 -/

/-- Claim C10. For every connection state, error mode, and ttl argument,
`getMany([])` returns the empty array and `setMany([], ttl)` returns
`true`, synchronously short-circuiting with no validation, no
connection attempt and no network call, and with the client state
unchanged — even for a TTL that would fail validation. -/
theorem c10_empty_batch_short_circuit (now : Nat) (opts : ClientOptions)
    (callMode : Option ErrorMode) (ttlSeconds : Option Int)
    (connectOut : ConnectOutcome) (og : CmdOutcome (List JsonValue))
    (os : CmdOutcome Bool) (s : ClientState) :
    getManyOp now opts callMode [] connectOut og s = (.ok [], s, []) ∧
    setManyOp now opts callMode [] ttlSeconds connectOut os s = (.ok true, s, []) := by
  exact ⟨rfl, rfl⟩

/-! ## Claim C1 -/

/-- Claim C1, code bug. The claim says a command timeout is recorded
into the connection state machine before the call returns (cooldown,
or failed).  In the code the timeout guard's `CacheTimeoutError`
carries no system `code` and its message does not contain
"Connection is closed", so `isConnectionError` rejects it and
`handleCommandError` leaves the state machine untouched: after a
timed-out `get` on a connected client the state is still `connected`,
`cooldownEndsAt` is still unset and `reconnectAttempts` still 0, in
graceful mode and in throw mode alike. -/
theorem c1_command_timeout_not_recorded :
    isConnectionError (cacheTimeoutJsError "get" 500) = false ∧
    executeCommand 100 defaultOptions none "get" JsonValue.null .ok .timedOut
        connectedReadyState =
      (.ok .null, connectedReadyState, [.commandCall]) ∧
    executeCommand 100 defaultOptions (some .throw) "get" JsonValue.null .ok .timedOut
        connectedReadyState =
      (.error (.timeout "get" 500), connectedReadyState, [.commandCall]) := by
  exact ⟨rfl, rfl, rfl⟩

/-! ## Claim C3 -/

/-- Claim C3, counterexample. A `WRONGTYPE` driver error during
`increment` on a healthy connected client does *not* propagate to the
caller unchanged: in graceful mode the call swallows it and returns
the default `0`, and in throw mode it is wrapped in a
`CacheUnavailableError` that merely carries the original as `cause`.
(The connection state is indeed unaffected.) -/
theorem c3_counterexample_wrongtype_swallowed :
    isConnectionError wrongTypeError = false ∧
    executeCommand 100 defaultOptions none "increment" (0 : Int) .ok
        (.fail wrongTypeError) connectedReadyState =
      (.ok 0, connectedReadyState, [.commandCall]) ∧
    executeCommand 100 defaultOptions (some .throw) "increment" (0 : Int) .ok
        (.fail wrongTypeError) connectedReadyState =
      (.error (.unavailable "Cache operation \x27increment\x27 failed"
        (some wrongTypeError) "increment"), connectedReadyState, [.commandCall]) ∧
    (Except.ok (0 : Int) : Except CacheErr Int) ≠
      .error (.driverError wrongTypeError) := by
  refine ⟨rfl, rfl, rfl, ?_⟩
  intro h
  exact Except.noConfusion h

/-- Claim C3, amended. A driver error that is not connection-class
never affects the connection state machine; the call does not
re-raise it unchanged but applies the error policy: in graceful mode
it returns the operation's default, in throw mode it raises a
`CacheUnavailableError` carrying the original error as its cause. -/
theorem c3_semantic_error_policy {α : Type} (now : Nat) (opts : ClientOptions)
    (callMode : Option ErrorMode) (operation : String) (defaultValue : α)
    (connectOut : ConnectOutcome) (e : JsError) (s : ClientState)
    (hs : canExecuteCommands s = true) (he : isConnectionError e = false) :
    executeCommand now opts callMode operation defaultValue connectOut (.fail e) s =
      (if callMode.getD opts.onError = .throw then
         .error (.unavailable ("Cache operation \x27" ++ operation ++ "\x27 failed")
           (some e) operation)
       else .ok defaultValue, s, [.commandCall]) := by
  simp [executeCommand, hs, handleCommandError, he]

/-- Claim C3, witness. The amended statement at the `WRONGTYPE` error on
a connected client, in graceful mode. -/
theorem c3_semantic_error_policy_witness :
    canExecuteCommands connectedReadyState = true ∧
    isConnectionError wrongTypeError = false ∧
    executeCommand 100 defaultOptions none "increment" (0 : Int) .ok
        (.fail wrongTypeError) connectedReadyState =
      (if (none : Option ErrorMode).getD defaultOptions.onError = .throw then
         .error (.unavailable ("Cache operation \x27increment\x27 failed")
           (some wrongTypeError) "increment")
       else .ok 0, connectedReadyState, [.commandCall]) := by
  exact ⟨rfl, rfl,
    c3_semantic_error_policy 100 defaultOptions none "increment" 0 .ok
      wrongTypeError connectedReadyState rfl rfl⟩

/-! ## Claim C8 -/

/-- Claim C8, counterexample. `reconnectAttempts` is not incremented only
by failed connection attempts: a connection-class error raised by a
*command* on a healthy connected client bumps it from 0 to 1 while the
events show that no connection attempt was made at all. -/
theorem c8_counterexample_command_error_increments :
    connectedReadyState.reconnectAttempts = 0 ∧
    executeCommand 100 defaultOptions none "get" JsonValue.null .ok
        (.fail econnResetError) connectedReadyState =
      (.ok .null,
       { state := .cooldown
         lastError := some econnResetError
         lastFailedAt := some 100
         reconnectAttempts := 1
         cooldownEndsAt := some 10100
         redisReady := true },
       [.commandCall]) ∧
    NetEvent.connectAttempt ∉ [NetEvent.commandCall] := by
  exact ⟨rfl, rfl, by decide⟩

/-- Claim C8, amended. `reconnectAttempts` resets to 0 on every
successful connection, and is incremented exactly once per invocation
of the connection-failure handler — which runs not only on a failed
connect attempt, but also on a connection-class command error and on
the driver `error`/`close` events. -/
theorem c8_reconnectAttempts_accounting {α : Type} (now : Nat) (opts : ClientOptions)
    (callMode : Option ErrorMode) (operation : String) (defaultValue : α)
    (connectOut : ConnectOutcome) (e : JsError) (s : ClientState) :
    ((doConnect now opts .ok s).2.1.reconnectAttempts = 0 ∧
      (doConnect now opts .ok s).2.2 = [.connectAttempt]) ∧
    ((doConnect now opts (.fail e) s).2.1.reconnectAttempts = s.reconnectAttempts + 1 ∧
      (doConnect now opts (.fail e) s).2.2 = [.connectAttempt]) ∧
    (handleConnectionFailure now opts e s).reconnectAttempts = s.reconnectAttempts + 1 ∧
    (boundErrorHandler now opts e s).reconnectAttempts = s.reconnectAttempts + 1 ∧
    (s.state = .connected →
      (boundCloseHandler now opts s).reconnectAttempts = s.reconnectAttempts + 1) ∧
    (s.state ≠ .connected → boundCloseHandler now opts s = s) ∧
    (canExecuteCommands s = true → isConnectionError e = true →
      (executeCommand now opts callMode operation defaultValue connectOut (.fail e) s).2.1.reconnectAttempts
          = s.reconnectAttempts + 1 ∧
      (executeCommand now opts callMode operation defaultValue connectOut (.fail e) s).2.2
          = [.commandCall]) := by
  refine ⟨⟨rfl, rfl⟩, ⟨?_, rfl⟩, ?_, ?_, ?_, ?_, ?_⟩
  · simp [doConnect, handleConnectionFailure, enterCooldown]
    split <;> rfl
  · simp [handleConnectionFailure, enterCooldown]
    split <;> rfl
  · simp [boundErrorHandler, handleConnectionFailure, enterCooldown]
    split <;> rfl
  · intro hconn
    simp [boundCloseHandler, hconn, handleConnectionFailure, enterCooldown]
    split <;> rfl
  · intro hconn
    simp [boundCloseHandler, hconn]
  · intro hs he
    constructor
    · simp [executeCommand, hs, handleCommandError, he, handleConnectionFailure,
        enterCooldown]
      split <;> rfl
    · simp [executeCommand, hs, handleCommandError, he, handleConnectionFailure,
        enterCooldown]

/-- Claim C8, witness. The accounting at a connected client and a
concrete reset error. -/
theorem c8_reconnectAttempts_accounting_witness :
    connectedReadyState.state = .connected ∧
    canExecuteCommands connectedReadyState = true ∧
    isConnectionError econnResetError = true ∧
    (boundCloseHandler 100 defaultOptions connectedReadyState).reconnectAttempts =
      connectedReadyState.reconnectAttempts + 1 ∧
    (executeCommand 100 defaultOptions none "get" JsonValue.null .ok
        (.fail econnResetError) connectedReadyState).2.1.reconnectAttempts =
      connectedReadyState.reconnectAttempts + 1 := by
  have h := @c8_reconnectAttempts_accounting JsonValue 100 defaultOptions none
    "get" JsonValue.null .ok econnResetError connectedReadyState
  exact ⟨rfl, rfl, rfl, h.2.2.2.2.1 rfl, (h.2.2.2.2.2.2 rfl rfl).1⟩

/-! ## Claim C2 -/

/-- Every reconnect attempt performs exactly the one driver connect
call, whatever the driver outcome. -/
theorem attemptReconnect_events (now : Nat) (opts : ClientOptions)
    (out : ConnectOutcome) (s : ClientState) :
    (attemptReconnect now opts out s).2.2 = [.connectAttempt] := by
  cases out <;> simp [attemptReconnect, connectFn, doConnect]

/-- Claim C2, amended: part two requires autoConnect. In cooldown with
`cooldownEndsAt = e`: a command issued strictly before `e` performs no
network interaction, leaves the state unchanged, and returns the
operation's graceful default (or throws the typed unavailable fault in
throw mode); a command issued at or after `e` on a client with
autoConnect enabled performs exactly one reconnect attempt. -/
theorem c2_cooldown_circuit {α : Type} (now : Nat) (opts : ClientOptions)
    (callMode : Option ErrorMode) (operation : String) (defaultValue : α)
    (connectOut : ConnectOutcome) (outcome : CmdOutcome α) (s : ClientState) (e : Nat)
    (hcool : s.state = .cooldown) (hend : s.cooldownEndsAt = some e) :
    (now < e →
      executeCommand now opts callMode operation defaultValue connectOut outcome s =
        (if callMode.getD opts.onError = .throw then
           .error (.unavailable "Cache is unavailable (state: cooldown)"
             s.lastError operation)
         else .ok defaultValue, s, [])) ∧
    (e ≤ now → opts.autoConnect = true →
      (executeCommand now opts callMode operation defaultValue connectOut outcome s).2.2.count
        .connectAttempt = 1) := by
  have hs : canExecuteCommands s = false := by simp [canExecuteCommands, hcool]
  constructor
  · intro hlt
    have hens : ensureConnected now opts connectOut s = (false, s, []) := by
      by_cases hauto : opts.autoConnect = true
      · simp [ensureConnected, hs, hauto, hcool, hend, Nat.not_le.mpr hlt]
      · exact ensureConnected_noAutoConnect (Bool.eq_false_iff.mpr hauto) hs
    rw [executeCommand_blocked hs hens]
    simp [connStateName, hcool]
  · intro hge hauto
    have hens : ensureConnected now opts connectOut s =
        attemptReconnect now opts connectOut s := by
      simp [ensureConnected, hs, hauto, hcool, hend, hge]
    have hev := attemptReconnect_events now opts connectOut s
    rcases har : attemptReconnect now opts connectOut s with ⟨b, s2, ev⟩
    rw [har] at hev
    simp only at hev
    cases b <;> cases outcome <;>
      simp [executeCommand, hs, hens, har, hev, List.count_cons]

/-- Claim C2, witness. Both halves at the concrete cooldown client
(window ends at 1000): a command at 500 fails fast with the default
and no events; a command at 2000 performs exactly one reconnect
attempt. -/
theorem c2_cooldown_circuit_witness :
    cooldownState1000.state = .cooldown ∧
    cooldownState1000.cooldownEndsAt = some 1000 ∧
    executeCommand 500 defaultOptions none "get" JsonValue.null .ok (.ok .null)
        cooldownState1000 =
      (.ok .null, cooldownState1000, []) ∧
    (executeCommand 2000 defaultOptions none "get" JsonValue.null .ok (.ok .null)
        cooldownState1000).2.2.count .connectAttempt = 1 := by
  have h := c2_cooldown_circuit 500 defaultOptions none "get" JsonValue.null .ok
    (.ok .null) cooldownState1000 1000 rfl rfl
  have h2 := c2_cooldown_circuit 2000 defaultOptions none "get" JsonValue.null .ok
    (.ok .null) cooldownState1000 1000 rfl rfl
  refine ⟨rfl, rfl, ?_, h2.2 (by decide) rfl⟩
  have := h.1 (by decide)
  simpa [cooldownState1000] using this

/-- Claim C2, counterexample. The claim as stated fails without
autoConnect: a client with autoConnect disabled, sitting in cooldown,
receives a command at 2000 — at or after `cooldownEndsAt = 1000` — and
the code makes *zero* reconnect attempts (no events at all), not
exactly one. -/
theorem c2_counterexample_noAutoConnect :
    cooldownState1000.state = .cooldown ∧
    cooldownState1000.cooldownEndsAt = some 1000 ∧
    1000 ≤ 2000 ∧
    executeCommand 2000 noAutoConnectOptions none "get" JsonValue.null .ok (.ok .null)
        cooldownState1000 =
      (.ok .null, cooldownState1000, []) ∧
    ([] : List NetEvent).count .connectAttempt = 0 := by
  exact ⟨rfl, rfl, by decide, rfl, rfl⟩

/-! ## Claim C4 -/

/-- A key the source rejects yields a validation error. -/
theorem validateKey_error_of_bad (key : String) (hbad : badKeyAmended key = true) :
    ∃ e, validateKey key = .error e := by
  unfold validateKey
  split_ifs with h1 h2 h3
  · exact ⟨_, rfl⟩
  · exact ⟨_, rfl⟩
  · exact ⟨_, rfl⟩
  · exfalso
    unfold badKeyAmended at hbad
    simp only [Bool.or_eq_true] at hbad
    rcases hbad with ((hb | hb) | hb) | hb
    · exact absurd (of_decide_eq_true hb) h1
    · exact absurd (of_decide_eq_true hb) h2
    · exact h3 (by rw [Bool.or_eq_true]; exact Or.inl hb)
    · exact h3 (by rw [Bool.or_eq_true]; exact Or.inr hb)

/-- Claim C4, counterexample. A key containing the control character TAB
passes validation: `validateKey "a\tb"` succeeds although the key
contains a control character, and a `get` with that key proceeds to
the network and returns normally instead of raising a
programming-error fault. -/
theorem c4_counterexample_tab_key_accepted :
    specHasControlChars "a\tb" = true ∧
    validateKey "a\tb" = .ok () ∧
    getOp 100 defaultOptions none "a\tb" none .ok (.ok (.str "v"))
        connectedReadyState =
      (.ok (.str "v"), { connectedReadyState with lastSuccessAt := some 100 },
       [.commandCall]) := by
  exact ⟨rfl, rfl, rfl⟩

/-- Claim C4, amended. For every public operation that takes a key (or
list of keys), a key that is empty, longer than 512 characters, or
containing a newline or carriage-return character causes a
programming-error fault raised synchronously before any network call
and regardless of the error mode — it is never converted into a
graceful sentinel.  (The source checks only `\n` and `\r`, not all
control characters.) -/
theorem c4_invalid_key_raises_synchronously (key : String)
    (hbad : badKeyAmended key = true) (now : Nat) (opts : ClientOptions)
    (callMode : Option ErrorMode) (value : JsonValue) (ttlSeconds : Option Int)
    (ttlReq amount defaultNum : Int) (connectOut : ConnectOutcome)
    (og : CmdOutcome JsonValue) (ob ob2 ob3 ob4 : CmdOutcome Bool)
    (oi oi2 oi3 oi4 : CmdOutcome Int) (om : CmdOutcome (List JsonValue))
    (isValid : Option (JsonValue → Bool)) (w : CacheWorld) (s : ClientState) :
    ∃ e, validateKey key = .error e ∧
      getOp now opts callMode key none connectOut og s = (.error e, s, []) ∧
      setOp now opts callMode key value ttlSeconds connectOut ob s = (.error e, s, []) ∧
      removeOp now opts callMode key connectOut ob2 s = (.error e, s, []) ∧
      existsOp now opts callMode key connectOut ob3 s = (.error e, s, []) ∧
      ttlOp now opts callMode key connectOut oi s = (.error e, s, []) ∧
      expireOp now opts callMode key ttlReq connectOut ob4 s = (.error e, s, []) ∧
      incrementOp now opts callMode key amount defaultNum connectOut oi2 s =
        (.error e, s, []) ∧
      decrementOp now opts callMode key amount defaultNum connectOut oi3 s =
        (.error e, s, []) ∧
      decrementOrInitOp now opts callMode key defaultNum ttlReq connectOut oi4 s =
        (.error e, s, []) ∧
      setIfNotExistsOp now opts callMode key value ttlSeconds connectOut ob s =
        (.error e, s, []) ∧
      getManyOp now opts callMode [key] connectOut om s = (.error e, s, []) ∧
      setManyOp now opts callMode [(key, value)] ttlSeconds connectOut ob s =
        (.error e, s, []) ∧
      getOrSetRun now key value ttlSeconds isValid w = .error e := by
  obtain ⟨e, hvk⟩ := validateKey_error_of_bad key hbad
  refine ⟨e, hvk, ?_, ?_, ?_, ?_, ?_, ?_, ?_, ?_, ?_, ?_, ?_, ?_, ?_⟩
  · simp [getOp, hvk]
  · simp [setOp, hvk]
  · simp [removeOp, hvk]
  · simp [existsOp, hvk]
  · simp [ttlOp, hvk]
  · simp [expireOp, hvk]
  · simp [incrementOp, hvk]
  · simp [decrementOp, hvk]
  · simp [decrementOrInitOp, hvk]
  · simp [setIfNotExistsOp, hvk]
  · simp [getManyOp, validateKeys, hvk]
  · simp [setManyOp, validateKeys, hvk]
  · simp [getOrSetRun, hvk]

/-- Claim C4, witness. The empty key, rejected by every keyed operation
before any network interaction. -/
theorem c4_invalid_key_raises_synchronously_witness :
    badKeyAmended "" = true ∧
    (∃ e, validateKey "" = .error e ∧
      getOp 3 defaultOptions none "" none .ok (.ok .null) connectedReadyState =
        (.error e, connectedReadyState, []) ∧
      getManyOp 3 defaultOptions none [""] .ok (.ok []) connectedReadyState =
        (.error e, connectedReadyState, [])) := by
  obtain ⟨e, hvk, hget, _, _, _, _, _, _, _, _, _, hmany, _, _⟩ :=
    c4_invalid_key_raises_synchronously "" rfl 3 defaultOptions none .null none
      1 1 0 .ok (.ok .null) (.ok true) (.ok true) (.ok true) (.ok true) (.ok 0)
      (.ok 0) (.ok 0) (.ok 0) (.ok []) none .down connectedReadyState
  exact ⟨rfl, e, hvk, hget, hmany⟩


/-! ## JSON round trip: digits -/

theorem digitVal_digitChar {d : Nat} (hd : d < 10) : digitVal (digitChar d) = d := by
  interval_cases d <;> rfl

theorem isDigit_digitChar {d : Nat} (hd : d < 10) : (digitChar d).isDigit = true := by
  interval_cases d <;> rfl

theorem natChars_ne_nil (n : Nat) : natChars n ≠ [] := by
  unfold natChars
  split
  · simp
  · rename_i h
    simp [Nat.digits_ne_nil_iff_ne_zero.mpr h]

theorem natChars_all_digits (n : Nat) : ∀ c ∈ natChars n, c.isDigit = true := by
  unfold natChars
  split
  · intro c hc
    simp at hc
    subst hc
    rfl
  · intro c hc
    simp only [List.mem_map, List.mem_reverse] at hc
    obtain ⟨d, hd, rfl⟩ := hc
    exact isDigit_digitChar (Nat.digits_lt_base (by omega) hd)

theorem natChars_head_digit (n : Nat) :
    ∃ c cs, natChars n = c :: cs ∧ c.isDigit = true := by
  rcases h : natChars n with _ | ⟨c, cs⟩
  · exact absurd h (natChars_ne_nil n)
  · exact ⟨c, cs, rfl, natChars_all_digits n c (by rw [h]; simp)⟩

theorem foldl_digitChar (l : List Nat) (hl : ∀ d ∈ l, d < 10) (acc : Nat) :
    (l.map digitChar).foldl (fun a c => 10 * a + digitVal c) acc =
      l.foldl (fun a d => 10 * a + d) acc := by
  induction l generalizing acc with
  | nil => rfl
  | cons d l ih =>
    simp only [List.map_cons, List.foldl_cons,
      digitVal_digitChar (hl d (by simp))]
    exact ih (fun x hx => hl x (by simp [hx])) _

theorem foldl_ofDigits (l : List Nat) (acc : Nat) :
    l.foldl (fun a d => 10 * a + d) acc =
      acc * 10 ^ l.length + Nat.ofDigits 10 l.reverse := by
  induction l generalizing acc with
  | nil => simp [Nat.ofDigits]
  | cons d l ih =>
    rw [List.foldl_cons, ih, List.reverse_cons, Nat.ofDigits_append]
    simp [Nat.ofDigits, List.length_reverse]
    ring

theorem natVal_natChars (n : Nat) :
    (natChars n).foldl (fun a c => 10 * a + digitVal c) 0 = n := by
  unfold natChars
  split
  · rename_i h
    subst h
    rfl
  · have hd : ∀ d ∈ (Nat.digits 10 n).reverse, d < 10 := fun d hd =>
      Nat.digits_lt_base (by omega) (List.mem_reverse.mp hd)
    rw [foldl_digitChar _ hd, foldl_ofDigits]
    simp [Nat.ofDigits_digits]

theorem takeWhile_append_all {p : Char → Bool} (l rest : List Char)
    (hl : ∀ c ∈ l, p c = true)
    (hrest : ∀ c, rest.head? = some c → p c = false) :
    (l ++ rest).takeWhile p = l ∧ (l ++ rest).dropWhile p = rest := by
  induction l with
  | nil =>
    cases rest with
    | nil => exact ⟨rfl, rfl⟩
    | cons c t =>
      simp [List.takeWhile, List.dropWhile, hrest c rfl]
  | cons c l ih =>
    have hc := hl c (by simp)
    obtain ⟨h1, h2⟩ := ih (fun x hx => hl x (by simp [hx]))
    simp [List.takeWhile, List.dropWhile, hc, h1, h2]

theorem parseNatChars_append (n : Nat) (rest : List Char)
    (hrest : headNotDigit rest = true) :
    parseNatChars (natChars n ++ rest) = some (n, rest) := by
  have hrest2 : ∀ c, rest.head? = some c → c.isDigit = false := by
    intro c hc
    cases rest with
    | nil => simp at hc
    | cons d t =>
      simp at hc
      subst hc
      unfold headNotDigit at hrest
      simpa using hrest
  obtain ⟨h1, h2⟩ := takeWhile_append_all (natChars n) rest (natChars_all_digits n) hrest2
  unfold parseNatChars
  simp only [h1, h2, natChars_ne_nil n, if_false, natVal_natChars]

theorem natChars_head_not_zero {n : Nat} (hn : n ≠ 0) :
    ∃ c cs, natChars n = c :: cs ∧ c ≠ '0' := by
  have hdig : Nat.digits 10 n ≠ [] := Nat.digits_ne_nil_iff_ne_zero.mpr hn
  rcases hrev : (Nat.digits 10 n).reverse with _ | ⟨d, t⟩
  · exact absurd (by simpa using congrArg List.reverse hrev) hdig
  · have hds : Nat.digits 10 n = t.reverse ++ [d] := by
      have := congrArg List.reverse hrev
      simpa using this
    have hdmem : d ∈ Nat.digits 10 n := by rw [hds]; simp
    have hdlt : d < 10 := Nat.digits_lt_base (by omega) hdmem
    have hlast : (Nat.digits 10 n).getLast hdig ≠ 0 := Nat.getLast_digit_ne_zero 10 hn
    have hglq : (Nat.digits 10 n).getLast? = some d := by
      rw [hds]
      exact List.getLast?_concat _
    have hgl2 : (Nat.digits 10 n).getLast? = some ((Nat.digits 10 n).getLast hdig) :=
      List.getLast?_eq_getLast _ hdig
    have hdne : d ≠ 0 := by
      rw [hglq] at hgl2
      have := Option.some_inj.mp hgl2
      omega
    refine ⟨digitChar d, t.map digitChar, ?_, ?_⟩
    · unfold natChars
      rw [if_neg hn, hrev]
      rfl
    · interval_cases d
      · exact absurd rfl hdne
      all_goals decide

theorem parseIntDigits_append (n : Nat) (rest : List Char)
    (hrest : headNotDigit rest = true) :
    parseIntDigits (natChars n ++ rest) = some (n, rest) := by
  by_cases hn : n = 0
  · subst hn
    rw [show natChars 0 = ['0'] from rfl]
    simp [parseIntDigits]
  · obtain ⟨c, cs, hc, hc0⟩ := natChars_head_not_zero hn
    have hne : ((natChars n ++ rest).take 1 = ['0']) = False := by
      rw [hc, List.cons_append]
      simp [hc0]
    simp only [parseIntDigits, hne, if_false]
    exact parseNatChars_append n rest hrest

/-! ## JSON round trip: strings -/

theorem isHexDigit_hexDigitChar {k : Nat} (hk : k < 16) :
    isHexDigit (hexDigitChar k) = true := by
  interval_cases k <;> rfl

theorem hexVal_hexDigitChar {k : Nat} (hk : k < 16) :
    hexVal (hexDigitChar k) = k := by
  interval_cases k <;> rfl

theorem charOfNat_toNat {c : Char} (h : c.toNat < 55296) :
    Char.ofNat c.toNat = c := by
  have hv : c.toNat.isValidChar := Or.inl h
  rw [Char.ofNat, dif_pos hv]
  rfl

theorem parseStrBody_escChars (l rest : List Char) :
    parseStrBody (escChars l ++ '"' :: rest) = some (l, rest) := by
  induction l with
  | nil =>
    show parseStrBody ('"' :: rest) = _
    rw [parseStrBody.eq_def]
    simp
  | cons c l ih =>
    show parseStrBody ((escChar c ++ escChars l) ++ '"' :: rest) = _
    by_cases hq : c = '"'
    · subst hq
      show parseStrBody ('\\' :: '"' :: (escChars l ++ '"' :: rest)) = _
      rw [parseStrBody.eq_def]
      simp [unescape1, ih]
    · by_cases hb : c = '\\'
      · subst hb
        show parseStrBody ('\\' :: '\\' :: (escChars l ++ '"' :: rest)) = _
        rw [parseStrBody.eq_def]
        simp [unescape1, ih]
      · have hc : ¬(c = '"' ∨ c = '\\') := by
          intro h
          rcases h with h | h
          · exact hq h
          · exact hb h
        by_cases h08 : c = '\x08'
        · subst h08
          show parseStrBody ('\\' :: 'b' :: (escChars l ++ '"' :: rest)) = _
          rw [parseStrBody.eq_def]
          simp [unescape1, ih]
        · by_cases h09 : c = '\t'
          · subst h09
            show parseStrBody ('\\' :: 't' :: (escChars l ++ '"' :: rest)) = _
            rw [parseStrBody.eq_def]
            simp [unescape1, ih]
          · by_cases h0a : c = '\n'
            · subst h0a
              show parseStrBody ('\\' :: 'n' :: (escChars l ++ '"' :: rest)) = _
              rw [parseStrBody.eq_def]
              simp [unescape1, ih]
            · by_cases h0c : c = '\x0c'
              · subst h0c
                show parseStrBody ('\\' :: 'f' :: (escChars l ++ '"' :: rest)) = _
                rw [parseStrBody.eq_def]
                simp [unescape1, ih]
              · by_cases h0d : c = '\x0d'
                · subst h0d
                  show parseStrBody ('\\' :: 'r' :: (escChars l ++ '"' :: rest)) = _
                  rw [parseStrBody.eq_def]
                  simp [unescape1, ih]
                · by_cases hctl : c.toNat < 32
                  · have he : escChar c =
                        '\\' :: 'u' :: '0' :: '0' ::
                          [hexDigitChar (c.toNat / 16), hexDigitChar (c.toNat % 16)] := by
                      rw [escChar, if_neg hc, if_neg h08, if_neg h09, if_neg h0a,
                        if_neg h0c, if_neg h0d, if_pos hctl]
                    rw [he]
                    show parseStrBody ('\\' :: 'u' :: '0' :: '0' ::
                        hexDigitChar (c.toNat / 16) :: hexDigitChar (c.toNat % 16) ::
                        (escChars l ++ '"' :: rest)) = _
                    have hhi : c.toNat / 16 < 16 := by omega
                    have hlo : c.toNat % 16 < 16 := Nat.mod_lt _ (by omega)
                    have e1 := isHexDigit_hexDigitChar hhi
                    have e2 := isHexDigit_hexDigitChar hlo
                    have v1 := hexVal_hexDigitChar hhi
                    have v2 := hexVal_hexDigitChar hlo
                    have v0 : hexVal '0' = 0 := rfl
                    have e0 : isHexDigit '0' = true := rfl
                    have hcode : (c.toNat / 16) * 16 + c.toNat % 16 = c.toNat := by omega
                    rw [parseStrBody.eq_def]
                    simp only [e0, e1, e2, v0, v1, v2, ih]
                    simp [hcode, charOfNat_toNat (show c.toNat < 55296 by omega)]
                  · have he : escChar c = [c] := by
                      rw [escChar, if_neg hc, if_neg h08, if_neg h09, if_neg h0a,
                        if_neg h0c, if_neg h0d, if_neg hctl]
                    rw [he]
                    show parseStrBody (c :: (escChars l ++ '"' :: rest)) = _
                    rw [parseStrBody.eq_def]
                    simp [hq, hb, hctl, ih]


theorem digit_ne_brackets {c : Char} (h : c.isDigit = true) : c ≠ ']' ∧ c ≠ '\x7d' := by
  constructor <;> intro heq <;> rw [heq] at h <;> exact absurd h (by decide)

theorem jsonChars_head (v : JsonValue) :
    ∃ c cs, jsonChars v = c :: cs ∧ c ≠ ']' ∧ c ≠ '\x7d' := by
  cases v with
  | null =>
    exact ⟨'n', ['u', 'l', 'l'], by simp only [jsonChars], by decide, by decide⟩
  | bool b =>
    cases b with
    | false =>
      exact ⟨'f', ['a', 'l', 's', 'e'], by simp only [jsonChars], by decide, by decide⟩
    | true =>
      exact ⟨'t', ['r', 'u', 'e'], by simp only [jsonChars], by decide, by decide⟩
  | num i =>
    have hjson : jsonChars (.num i) = intChars i := by simp only [jsonChars]
    rw [hjson]
    unfold intChars
    split
    · exact ⟨'-', natChars i.natAbs, rfl, by decide, by decide⟩
    · obtain ⟨c, cs, hc, hdig⟩ := natChars_head_digit i.toNat
      obtain ⟨hne1, hne2⟩ := digit_ne_brackets hdig
      exact ⟨c, cs, hc, hne1, hne2⟩
  | str s =>
    exact ⟨'"', escChars s.data ++ ['"'], by simp only [jsonChars], by decide, by decide⟩
  | arr items =>
    cases items with
    | nil => exact ⟨'[', [']'], by simp only [jsonChars], by decide, by decide⟩
    | cons v vs =>
      exact ⟨'[', jsonChars v ++ arrTailChars vs ++ [']'],
        by simp only [jsonChars], by decide, by decide⟩
  | obj fields =>
    cases fields with
    | nil => exact ⟨'\x7b', ['\x7d'], by simp only [jsonChars], by decide, by decide⟩
    | cons f fs =>
      exact ⟨'\x7b', fieldChars f ++ objTailChars fs ++ ['\x7d'],
        by simp only [jsonChars], by decide, by decide⟩

theorem sizeJ_pos (v : JsonValue) : 1 ≤ sizeJ v := by
  cases v <;> simp [sizeJ]


theorem parseVal_num (F : Nat) (i : Int) (rest : List Char)
    (hnd : headNotDigit rest = true) :
    parseVal (F + 1) (intChars i ++ rest) = some (.num i, rest) := by
  unfold intChars
  split
  · rename_i hneg
    rw [List.cons_append]
    simp only [parseVal]
    rw [parseIntDigits_append _ _ hnd]
    simp
    rw [abs_of_neg hneg, neg_neg]
  · rename_i hpos
    obtain ⟨c, cs, hc, hdig⟩ := natChars_head_digit i.toNat
    rw [hc, List.cons_append]
    simp only [parseVal, hdig]
    rw [← List.cons_append, ← hc, parseIntDigits_append _ _ hnd]
    simp
    omega


theorem headNotDigit_arrTail (vs : List JsonValue) (rest : List Char) :
    headNotDigit (arrTailChars vs ++ ']' :: rest) = true := by
  cases vs with
  | nil => rfl
  | cons u us => simp only [arrTailChars, List.cons_append]; rfl

theorem headNotDigit_objTail (fs : List (String × JsonValue)) (rest : List Char) :
    headNotDigit (objTailChars fs ++ '\x7d' :: rest) = true := by
  cases fs with
  | nil => rfl
  | cons g gs => simp only [objTailChars, List.cons_append]; rfl

theorem parse_json_spec (fuel : Nat) :
    (∀ v rest, sizeJ v ≤ fuel → headNotDigit rest = true →
      parseVal fuel (jsonChars v ++ rest) = some (v, rest)) ∧
    (∀ v vs rest, sizeItems (v :: vs) ≤ fuel →
      parseArrItems fuel (jsonChars v ++ (arrTailChars vs ++ ']' :: rest)) =
        some (v :: vs, rest)) ∧
    (∀ k w fs rest, sizeFields ((k, w) :: fs) ≤ fuel →
      parseObjItems fuel
        ('"' :: (escChars k.data ++ '"' :: ':' ::
          (jsonChars w ++ (objTailChars fs ++ '\x7d' :: rest)))) =
        some ((k, w) :: fs, rest)) := by
  induction fuel with
  | zero =>
    refine ⟨?_, ?_, ?_⟩
    · intro v rest hsz _
      exact absurd hsz (by have := sizeJ_pos v; omega)
    · intro v vs rest hsz
      have := sizeJ_pos v
      simp only [sizeItems] at hsz
      omega
    · intro k w fs rest hsz
      have := sizeJ_pos w
      simp only [sizeFields] at hsz
      omega
  | succ F ih =>
    obtain ⟨ih1, ih2, ih3⟩ := ih
    refine ⟨?_, ?_, ?_⟩
    · intro v rest hsz hnd
      cases v with
      | null =>
        simp only [jsonChars, List.cons_append]
        simp [parseVal]
      | bool b =>
        cases b with
        | false =>
          simp only [jsonChars, List.cons_append]
          simp [parseVal]
        | true =>
          simp only [jsonChars, List.cons_append]
          simp [parseVal]
      | num i =>
        have hn : jsonChars (.num i) = intChars i := by simp only [jsonChars]
        rw [hn]
        exact parseVal_num F i rest hnd
      | str s =>
        simp only [jsonChars, List.cons_append, List.append_assoc,
          List.singleton_append]
        simp [parseVal, parseStrBody_escChars]
      | arr items =>
        cases items with
        | nil =>
          simp only [jsonChars, List.cons_append]
          simp [parseVal]
        | cons v vs =>
          have hsz2 : sizeItems (v :: vs) ≤ F := by
            simp only [sizeJ] at hsz
            omega
          obtain ⟨c, cs, hc, hne1, _⟩ := jsonChars_head v
          simp only [jsonChars, List.cons_append, List.append_assoc,
            List.singleton_append, List.nil_append]
          rw [hc, List.cons_append]
          have htake : ((c :: (cs ++ (arrTailChars vs ++ ']' :: rest))).take 1 = [']'])
              = False := by
            simp [List.take, hne1]
          simp only [parseVal]
          simp only [htake]
          simp
          rw [← List.cons_append, ← hc, ih2 v vs rest hsz2]
      | obj fields =>
        cases fields with
        | nil =>
          simp only [jsonChars, List.cons_append]
          simp [parseVal]
        | cons f fs =>
          obtain ⟨k, w⟩ := f
          have hsz2 : sizeFields ((k, w) :: fs) ≤ F := by
            simp only [sizeJ] at hsz
            omega
          simp only [jsonChars, fieldChars, List.cons_append, List.append_assoc,
            List.singleton_append, List.nil_append]
          simp only [parseVal]
          simp [ih3 k w fs rest hsz2]
    · intro v vs rest hsz
      have hszv : sizeJ v ≤ F := by
        simp only [sizeItems] at hsz
        omega
      simp only [parseArrItems]
      rw [ih1 v _ hszv (headNotDigit_arrTail vs rest)]
      cases vs with
      | nil => simp [arrTailChars]
      | cons u us =>
        have hszu : sizeItems (u :: us) ≤ F := by
          have := sizeJ_pos v
          simp only [sizeItems] at hsz ⊢
          omega
        simp only [arrTailChars, List.cons_append, List.append_assoc,
          List.nil_append]
        simp [ih2 u us rest hszu]
    · intro k w fs rest hsz
      have hszw : sizeJ w ≤ F := by
        simp only [sizeFields] at hsz
        omega
      simp only [parseObjItems]
      simp [parseStrBody_escChars, ih1 w _ hszw (headNotDigit_objTail fs rest)]
      cases fs with
      | nil => simp [objTailChars]
      | cons g gs =>
        obtain ⟨k2, w2⟩ := g
        have hszg : sizeFields ((k2, w2) :: gs) ≤ F := by
          have := sizeJ_pos w
          simp only [sizeFields] at hsz ⊢
          omega
        simp only [objTailChars, fieldChars, List.cons_append, List.append_assoc,
          List.nil_append]
        simp [ih3 k2 w2 gs rest hszg]


theorem intChars_length_pos (i : Int) : 1 ≤ (intChars i).length := by
  unfold intChars
  split
  · simp
  · have hne := natChars_ne_nil i.toNat
    cases h : natChars i.toNat with
    | nil => exact absurd h hne
    | cons c cs => simp [h]

mutual

theorem sizeJ_le_two : ∀ v : JsonValue, sizeJ v ≤ 2 * (jsonChars v).length
  | .null => by simp [sizeJ, jsonChars]
  | .bool b => by cases b <;> simp [sizeJ, jsonChars]
  | .num i => by
    have := intChars_length_pos i
    simp only [sizeJ, jsonChars]
    omega
  | .str s => by
    simp only [sizeJ, jsonChars, List.length_cons, List.length_append]
    omega
  | .arr [] => by simp [sizeJ, sizeItems, jsonChars]
  | .arr (v :: vs) => by
    have h1 := sizeJ_le_two v
    have h2 := sizeItems_le_two vs
    simp only [sizeJ, sizeItems, jsonChars, List.length_cons, List.length_append]
    omega
  | .obj [] => by simp [sizeJ, sizeFields, jsonChars]
  | .obj ((k, w) :: fs) => by
    have h1 := sizeJ_le_two w
    have h2 := sizeFields_le_two fs
    simp only [sizeJ, sizeFields, jsonChars, fieldChars, List.length_cons,
      List.length_append]
    omega

theorem sizeItems_le_two : ∀ vs : List JsonValue,
    sizeItems vs ≤ 2 * (arrTailChars vs).length + 2
  | [] => by simp [sizeItems, arrTailChars]
  | v :: vs => by
    have h1 := sizeJ_le_two v
    have h2 := sizeItems_le_two vs
    simp only [sizeItems, arrTailChars, List.length_cons, List.length_append]
    omega

theorem sizeFields_le_two : ∀ fs : List (String × JsonValue),
    sizeFields fs ≤ 2 * (objTailChars fs).length + 2
  | [] => by simp [sizeFields, objTailChars]
  | (k, w) :: fs => by
    have h1 := sizeJ_le_two w
    have h2 := sizeFields_le_two fs
    simp only [sizeFields, objTailChars, fieldChars, List.length_cons,
      List.length_append]
    omega

end

/-- Round trip through the platform JSON codec: parsing a stringified
value yields the value back. -/
theorem parseJson_stringify (v : JsonValue) : parseJson (stringifyJson v) = some v := by
  unfold parseJson stringifyJson
  have hsz : sizeJ v ≤ 2 * (jsonChars v).length + 2 := by
    have := sizeJ_le_two v
    omega
  have h := (parse_json_spec (2 * (jsonChars v).length + 2)).1 v [] hsz rfl
  rw [List.append_nil] at h
  show (match parseVal (2 * (jsonChars v).length + 2) (jsonChars v) with
    | some (v, []) => some v
    | _ => none) = some v
  rw [h]


/-! ## Parser acceptance: `parseVal` succeeds only where the grammar accepts

Together with the faithfulness of `jsonAccepts` as the model of the
acceptance grammar of `JSON.parse`, these lemmas justify stating "the
platform does not parse this string" as `jsonAccepts s = false`: the
value parser then fails too, so `deserializeStored` keeps the raw
string exactly when the platform would. -/

theorem skipWs_not_ws {c : Char} (t : List Char) (h : isJsonWs c = false) :
    skipWs (c :: t) = c :: t := by
  simp [skipWs, h]

theorem ws_char_class {c : Char} (h : isJsonWs c = true) :
    c.isDigit = false ∧ c ≠ '-' ∧ c ≠ 'n' ∧ c ≠ 't' ∧ c ≠ 'f' ∧ c ≠ '"' ∧
      c ≠ '[' ∧ c ≠ '\x7b' := by
  rw [isJsonWs] at h
  have h2 : ((c = ' ' ∨ c = '\t') ∨ c = '\n') ∨ c = '\x0d' := by
    simpa using h
  rcases h2 with ((rfl | rfl) | rfl) | rfl <;>
    exact ⟨by decide, by decide, by decide, by decide, by decide, by decide,
      by decide, by decide⟩

theorem parseVal_skipWs : ∀ {f : Nat} {cs : List Char} {x : JsonValue × List Char},
    parseVal f cs = some x → skipWs cs = cs
  | 0, cs, x, h => by simp [parseVal] at h
  | F + 1, [], x, h => by simp [parseVal] at h
  | F + 1, c :: t, x, h => by
    cases hws : isJsonWs c with
    | false => exact skipWs_not_ws t hws
    | true =>
      obtain ⟨hd, h1, h2, h3, h4, h5, h6, h7⟩ := ws_char_class hws
      simp only [parseVal] at h
      simp [hd, h1, h2, h3, h4, h5, h6, h7] at h

theorem parseArrItems_skipWs : ∀ {f : Nat} {cs : List Char}
    {x : List JsonValue × List Char},
    parseArrItems f cs = some x → skipWs cs = cs
  | 0, cs, x, h => by simp [parseArrItems] at h
  | F + 1, cs, x, h => by
    simp only [parseArrItems, Option.bind_eq_some] at h
    obtain ⟨p, hp, _⟩ := h
    exact parseVal_skipWs hp

theorem parseObjItems_skipWs : ∀ {f : Nat} {cs : List Char}
    {x : List (String × JsonValue) × List Char},
    parseObjItems f cs = some x → skipWs cs = cs
  | 0, cs, x, h => by simp [parseObjItems] at h
  | F + 1, [], x, h => by simp [parseObjItems] at h
  | F + 1, c :: t, x, h => by
    by_cases hc : c = '"'
    · subst hc
      exact skipWs_not_ws t (by decide)
    · simp only [parseObjItems] at h
      simp [hc] at h

theorem chkStrBody_of_parseStrBody (cs : List Char) : ∀ s r,
    parseStrBody cs = some (s, r) → chkStrBody cs = some r := by
  induction cs using parseStrBody.induct with
  | case1 =>
    intro s r h
    simp [parseStrBody] at h
  | case2 rest =>
    intro s r h
    rw [parseStrBody.eq_def] at h
    simp at h
    rw [chkStrBody.eq_def]
    simp [h.2]
  | case3 hne =>
    intro s r h
    rw [parseStrBody.eq_def] at h
    simp at h
  | case4 k1 k2 k3 k4 rest3 hhex hne ih =>
    intro s r h
    rw [parseStrBody.eq_def] at h
    rw [chkStrBody.eq_def]
    simp [hhex] at h
    simp [hhex]
    obtain ⟨a, ha, -⟩ := h
    exact ih a r ha
  | case5 k1 k2 k3 k4 rest3 hhex hne =>
    intro s r h
    rw [parseStrBody.eq_def] at h
    simp [hhex] at h
  | case6 cs hshort hne =>
    intro s r h
    rw [parseStrBody.eq_def] at h
    rcases cs with _ | ⟨k1, (_ | ⟨k2, (_ | ⟨k3, (_ | ⟨k4, rest3⟩)⟩)⟩)⟩
    · simp at h
    · simp at h
    · simp at h
    · simp at h
    · exact (hshort k1 k2 k3 k4 rest3 rfl).elim
  | case7 e rest2 hnu hne ih =>
    intro s r h
    rw [parseStrBody.eq_def] at h
    rw [chkStrBody.eq_def]
    simp [hnu] at h
    simp [hnu]
    rw [Option.bind_eq_some] at h
    obtain ⟨d, hd, hmap⟩ := h
    simp at hmap
    obtain ⟨a, ha, -⟩ := hmap
    exact ⟨by simp [hd], ih a r ha⟩
  | case8 c rest hq hb hctl =>
    intro s r h
    rw [parseStrBody.eq_def] at h
    simp [hq, hb, hctl] at h
  | case9 c rest hq hb hctl ih =>
    intro s r h
    rw [parseStrBody.eq_def] at h
    rw [chkStrBody.eq_def]
    simp [hq, hb, hctl] at h
    simp [hq, hb, hctl]
    obtain ⟨a, ha, -⟩ := h
    exact ih a r ha

theorem chkNumber_of_parseIntDigits {cs : List Char} {p : Nat × List Char}
    (h : parseIntDigits cs = some p) (hb : numBoundaryOk p.2 = true) :
    chkNumber cs = some p.2 := by
  have hnb : chkFracPart p.2 = some p.2 ∧ chkExpPart p.2 = some p.2 := by
    rcases hr : p.2 with _ | ⟨c, t⟩
    · exact ⟨rfl, rfl⟩
    · rw [hr] at hb
      simp only [numBoundaryOk] at hb
      simp only [Bool.not_eq_eq_eq_not, Bool.not_true] at hb
      have hdot : c ≠ '.' := by
        intro hx
        rw [hx] at hb
        simp at hb
      have he1 : c ≠ 'e' := by
        intro hx
        rw [hx] at hb
        simp at hb
      have he2 : c ≠ 'E' := by
        intro hx
        rw [hx] at hb
        simp at hb
      constructor
      · rw [chkFracPart, if_neg (by simp [hdot])]
      · rw [chkExpPart, if_neg ?hcond]
        case hcond =>
          intro hx
          rcases hx with hx | hx <;> simp at hx
          · exact he1 hx
          · exact he2 hx
  have h1 : chkIntPart cs = some p.2 := by
    by_cases h0 : cs.take 1 = ['0']
    · rw [parseIntDigits, if_pos h0] at h
      rw [chkIntPart, if_pos h0]
      injection h with h2
      rw [← h2]
    · rw [parseIntDigits, if_neg h0] at h
      rw [chkIntPart, if_neg h0, h]
      rfl
  unfold chkNumber
  rw [h1]
  simp [hnb.1, hnb.2]

theorem chk_of_parse : ∀ fuel : Nat,
    (∀ cs v rest, parseVal fuel cs = some (v, rest) → numBoundaryOk rest = true →
      chkVal fuel cs = some rest) ∧
    (∀ cs vs rest, parseArrItems fuel cs = some (vs, rest) →
      chkArrItems fuel cs = some rest) ∧
    (∀ cs fs rest, parseObjItems fuel cs = some (fs, rest) →
      chkObjItems fuel cs = some rest) := by
  intro fuel
  induction fuel with
  | zero =>
    refine ⟨?_, ?_, ?_⟩ <;> intro cs a rest h <;>
      simp [parseVal, parseArrItems, parseObjItems] at h
  | succ F ih =>
    obtain ⟨ih1, ih2, ih3⟩ := ih
    refine ⟨?_, ?_, ?_⟩
    · intro cs v rest h hb
      rcases cs with _ | ⟨c, t⟩
      · simp [parseVal] at h
      · simp only [parseVal] at h
        simp only [chkVal]
        by_cases hdig : c.isDigit
        · simp only [hdig, if_true, if_pos] at h ⊢
          rw [Option.map_eq_some'] at h
          obtain ⟨p, hp, hpe⟩ := h
          rw [Prod.mk.injEq] at hpe
          obtain ⟨_, hrest⟩ := hpe
          subst hrest
          exact chkNumber_of_parseIntDigits hp hb
        · simp only [hdig, Bool.false_eq_true, if_false] at h ⊢
          by_cases hminus : c = '-'
          · simp only [hminus, if_true, if_pos] at h ⊢
            rw [Option.map_eq_some'] at h
            obtain ⟨p, hp, hpe⟩ := h
            rw [Prod.mk.injEq] at hpe
            obtain ⟨_, hrest⟩ := hpe
            subst hrest
            exact chkNumber_of_parseIntDigits hp hb
          · simp only [hminus, if_false] at h ⊢
            by_cases hn : c = 'n'
            · simp only [hn, if_true, if_pos] at h ⊢
              by_cases htk : t.take 3 = ['u', 'l', 'l']
              · simp only [htk, if_true, if_pos] at h ⊢
                rw [Option.some_inj] at h
                rw [Prod.mk.injEq] at h
                rw [h.2]
              · simp [htk] at h
            · simp only [hn, if_false] at h ⊢
              by_cases ht : c = 't'
              · simp only [ht, if_true, if_pos] at h ⊢
                by_cases htk : t.take 3 = ['r', 'u', 'e']
                · simp only [htk, if_true, if_pos] at h ⊢
                  rw [Option.some_inj] at h
                  rw [Prod.mk.injEq] at h
                  rw [h.2]
                · simp [htk] at h
              · simp only [ht, if_false] at h ⊢
                by_cases hf : c = 'f'
                · simp only [hf, if_true, if_pos] at h ⊢
                  by_cases htk : t.take 4 = ['a', 'l', 's', 'e']
                  · simp only [htk, if_true, if_pos] at h ⊢
                    rw [Option.some_inj] at h
                    rw [Prod.mk.injEq] at h
                    rw [h.2]
                  · simp [htk] at h
                · simp only [hf, if_false] at h ⊢
                  by_cases hq : c = '"'
                  · simp only [hq, if_true, if_pos] at h ⊢
                    rw [Option.map_eq_some'] at h
                    obtain ⟨p, hp, hpe⟩ := h
                    rw [Prod.mk.injEq] at hpe
                    obtain ⟨_, hrest⟩ := hpe
                    subst hrest
                    exact chkStrBody_of_parseStrBody t p.1 p.2 (by rw [hp])
                  · simp only [hq, if_false] at h ⊢
                    by_cases hlb : c = '['
                    · simp only [hlb, if_true, if_pos] at h ⊢
                      by_cases htk : t.take 1 = [']']
                      · rcases t with _ | ⟨c0, t0⟩
                        · simp at htk
                        · simp only [List.take, List.cons.injEq] at htk
                          obtain ⟨rfl, -⟩ := htk
                          rw [skipWs_not_ws t0 (by decide)]
                          simp at h ⊢
                          rw [h.2]
                      · simp only [htk, if_false] at h
                        rw [Option.map_eq_some'] at h
                        obtain ⟨p, hp, hpe⟩ := h
                        rw [Prod.mk.injEq] at hpe
                        obtain ⟨_, hrest⟩ := hpe
                        subst hrest
                        rw [parseArrItems_skipWs hp]
                        simp only [htk, if_false]
                        exact ih2 t p.1 p.2 (by rw [hp])
                    · simp only [hlb, if_false] at h ⊢
                      by_cases hob : c = '\x7b'
                      · simp only [hob, if_true, if_pos] at h ⊢
                        by_cases htk : t.take 1 = ['\x7d']
                        · rcases t with _ | ⟨c0, t0⟩
                          · simp at htk
                          · simp only [List.take, List.cons.injEq] at htk
                            obtain ⟨rfl, -⟩ := htk
                            rw [skipWs_not_ws t0 (by decide)]
                            simp at h ⊢
                            rw [h.2]
                        · simp only [htk, if_false] at h
                          rw [Option.map_eq_some'] at h
                          obtain ⟨p, hp, hpe⟩ := h
                          rw [Prod.mk.injEq] at hpe
                          obtain ⟨_, hrest⟩ := hpe
                          subst hrest
                          rw [parseObjItems_skipWs hp]
                          simp only [htk, if_false]
                          exact ih3 t p.1 p.2 (by rw [hp])
                      · simp only [hob, if_false] at h
                        exact absurd h (by simp)
    · intro cs vs rest h
      simp only [parseArrItems, Option.bind_eq_some] at h
      obtain ⟨p, hp, hbr⟩ := h
      simp only [chkArrItems, Option.bind_eq_some]
      by_cases h1 : p.2.take 1 = [',']
      · rw [if_pos h1] at hbr
        rw [Option.map_eq_some'] at hbr
        obtain ⟨q, hq, hqe⟩ := hbr
        rw [Prod.mk.injEq] at hqe
        obtain ⟨-, hrest⟩ := hqe
        subst hrest
        rcases hsnd : p.2 with _ | ⟨c2, t2⟩
        · rw [hsnd] at h1
          simp at h1
        · rw [hsnd] at h1
          simp at h1
          subst h1
          have hbnd : numBoundaryOk p.2 = true := by rw [hsnd]; rfl
          rw [hsnd] at hq
          simp only [List.drop_succ_cons, List.drop_zero] at hq
          refine ⟨p.2, ih1 cs p.1 p.2 (by rw [hp]) hbnd, ?_⟩
          rw [hsnd, skipWs_not_ws t2 (by decide)]
          rw [if_pos (show ((',' :: t2).take 1 = [',']) from rfl)]
          simp only [List.drop_succ_cons, List.drop_zero]
          rw [parseArrItems_skipWs hq]
          exact ih2 t2 q.1 q.2 (by rw [hq])
      · by_cases h2 : p.2.take 1 = [']']
        · rw [if_neg h1, if_pos h2] at hbr
          rw [Option.some_inj, Prod.mk.injEq] at hbr
          obtain ⟨-, hrest⟩ := hbr
          subst hrest
          rcases hsnd : p.2 with _ | ⟨c2, t2⟩
          · rw [hsnd] at h2
            simp at h2
          · rw [hsnd] at h2
            simp at h2
            subst h2
            have hbnd : numBoundaryOk p.2 = true := by rw [hsnd]; rfl
            refine ⟨p.2, ih1 cs p.1 p.2 (by rw [hp]) hbnd, ?_⟩
            rw [hsnd, skipWs_not_ws t2 (by decide)]
            rw [if_neg (show ¬((']' :: t2).take 1 = [',']) by simp)]
            rw [if_pos (show ((']' :: t2).take 1 = [']']) from rfl)]
        · rw [if_neg h1, if_neg h2] at hbr
          exact absurd hbr (by simp)
    · intro cs fs rest h
      rcases cs with _ | ⟨c, t⟩
      · simp [parseObjItems] at h
      · simp only [parseObjItems] at h
        simp only [chkObjItems]
        by_cases hq : c = '"'
        · rw [if_pos hq] at h
          rw [if_pos hq]
          rw [Option.bind_eq_some] at h
          obtain ⟨pk, hpk, hbr⟩ := h
          rw [Option.bind_eq_some]
          refine ⟨pk.2, chkStrBody_of_parseStrBody t pk.1 pk.2 (by rw [hpk]), ?_⟩
          by_cases hcol : pk.2.take 1 = [':']
          · rw [if_pos hcol] at hbr
            rw [Option.bind_eq_some] at hbr
            obtain ⟨pv, hpv, hbr2⟩ := hbr
            rcases hsnd : pk.2 with _ | ⟨c2, t2⟩
            · rw [hsnd] at hcol
              simp at hcol
            · rw [hsnd] at hcol
              simp at hcol
              subst hcol
              rw [hsnd] at hpv
              simp only [List.drop_succ_cons, List.drop_zero] at hpv
              rw [skipWs_not_ws t2 (by decide)]
              rw [if_pos (show ((':' :: t2).take 1 = [':']) from rfl)]
              simp only [List.drop_succ_cons, List.drop_zero]
              rw [parseVal_skipWs hpv]
              rw [Option.bind_eq_some]
              by_cases hcm : pv.2.take 1 = [',']
              · rw [if_pos hcm] at hbr2
                rw [Option.map_eq_some'] at hbr2
                obtain ⟨qq, hqq, hqe⟩ := hbr2
                rw [Prod.mk.injEq] at hqe
                obtain ⟨-, hrest⟩ := hqe
                subst hrest
                rcases hsnd2 : pv.2 with _ | ⟨c3, t3⟩
                · rw [hsnd2] at hcm
                  simp at hcm
                · rw [hsnd2] at hcm
                  simp at hcm
                  subst hcm
                  have hbnd : numBoundaryOk pv.2 = true := by rw [hsnd2]; rfl
                  rw [hsnd2] at hqq
                  simp only [List.drop_succ_cons, List.drop_zero] at hqq
                  refine ⟨pv.2, ih1 t2 pv.1 pv.2 (by rw [hpv]) hbnd, ?_⟩
                  rw [hsnd2, skipWs_not_ws t3 (by decide)]
                  rw [if_pos (show ((',' :: t3).take 1 = [',']) from rfl)]
                  simp only [List.drop_succ_cons, List.drop_zero]
                  rw [parseObjItems_skipWs hqq]
                  exact ih3 t3 qq.1 qq.2 (by rw [hqq])
              · by_cases hcb : pv.2.take 1 = ['\x7d']
                · rw [if_neg hcm, if_pos hcb] at hbr2
                  rw [Option.some_inj, Prod.mk.injEq] at hbr2
                  obtain ⟨-, hrest⟩ := hbr2
                  subst hrest
                  rcases hsnd2 : pv.2 with _ | ⟨c3, t3⟩
                  · rw [hsnd2] at hcb
                    simp at hcb
                  · rw [hsnd2] at hcb
                    simp at hcb
                    subst hcb
                    have hbnd : numBoundaryOk pv.2 = true := by rw [hsnd2]; rfl
                    refine ⟨pv.2, ih1 t2 pv.1 pv.2 (by rw [hpv]) hbnd, ?_⟩
                    rw [hsnd2, skipWs_not_ws t3 (by decide)]
                    rw [if_neg (show ¬(('\x7d' :: t3).take 1 = [',']) by simp)]
                    rw [if_pos (show (('\x7d' :: t3).take 1 = ['\x7d']) from rfl)]
                · rw [if_neg hcm, if_neg hcb] at hbr2
                  exact absurd hbr2 (by simp)
          · rw [if_neg hcol] at hbr
            exact absurd hbr (by simp)
        · rw [if_neg hq] at h
          exact absurd h (by simp)

theorem jsonAccepts_of_parseJson {s : String} {v : JsonValue}
    (h : parseJson s = some v) : jsonAccepts s = true := by
  unfold parseJson at h
  rcases hp : parseVal (2 * s.length + 2) s.data with _ | ⟨w, r⟩
  · rw [hp] at h
    simp at h
  · rw [hp] at h
    rcases r with _ | ⟨c, t⟩
    · have hskip := parseVal_skipWs hp
      have hchk := (chk_of_parse (2 * s.length + 2)).1 s.data w [] hp rfl
      unfold jsonAccepts
      rw [hskip, hchk]
      rfl
    · simp at h

theorem parseJson_none_of_reject {s : String} (h : jsonAccepts s = false) :
    parseJson s = none := by
  rcases hp : parseJson s with _ | v
  · rfl
  · rw [jsonAccepts_of_parseJson hp] at h
    simp at h


/-! ## Claims C6 and C9: store-level round trip -/

/-- Decoding a just-serialized value: the raw string for strings the
JSON grammar rejects (then `JSON.parse` throws, and by the inclusion
`jsonAccepts_of_parseJson` the modelled parser fails too), the
sanitized parse otherwise. -/
theorem deserializeStored_serialize (v : JsonValue)
    (hstr : ∀ s, v = .str s → jsonAccepts s = false) :
    deserializeStored (serialize v) = sanitizeParsedValue v := by
  cases v with
  | str s =>
    simp [serialize, deserializeStored, parseJson_none_of_reject (hstr s rfl),
      sanitizeParsedValue]
  | null => simp [serialize, deserializeStored, parseJson_stringify]
  | bool b => simp [serialize, deserializeStored, parseJson_stringify]
  | num i => simp [serialize, deserializeStored, parseJson_stringify]
  | arr items => simp [serialize, deserializeStored, parseJson_stringify]
  | obj fields => simp [serialize, deserializeStored, parseJson_stringify]

/-- Reading back a key right after `set`'s command body stored it
(before the TTL elapses) decodes the serialized value. -/
theorem getBody_setBody (now now2 : Nat) (key : String) (v : JsonValue)
    (ttl : Option Int) (st : Store)
    (hlive : ∀ t, ttl = some t → now2 < now + t.toNat) :
    getBody now2 key none (setBody now key v ttl st).2 =
      deserializeStored (serialize v) := by
  unfold setBody redisSet getBody redisGet
  cases ttl with
  | none => simp [List.lookup]
  | some t => simp [List.lookup, hlive t rfl]


/-- Claim C6, counterexample. The round trip is not the identity on every
valid input: storing the *string* `"123"` and reading it back yields
the *number* `123` — `serialize` stores strings raw, and the read side
then parses the stored text as JSON.  No prototype-pollution stripping
is involved. -/
theorem c6_counterexample_json_like_string :
    validateKey "k" = .ok () ∧
    validateTtl 60 = .ok () ∧
    getBody 0 "k" none (setBody 0 "k" (.str "123") (some 60) []).2 = .num 123 ∧
    JsonValue.num 123 ≠ .str "123" := by
  refine ⟨rfl, rfl, rfl, ?_⟩
  intro h
  exact JsonValue.noConfusion h

/-- Claim C6, amended. For every valid key and ttl, and every value
that is not a string accepted by the JSON grammar (`jsonAccepts`, the
model of what `JSON.parse` accepts), `set` followed immediately by
`get` (before the ttl elapses, with the connection healthy) returns
the original value modulo the permitted stripping of
`__proto__`/`constructor`/`prototype` properties.  (A string that
`JSON.parse` accepts instead comes back as the parsed, sanitized JSON
value, as the counterexample shows.) -/
theorem c6_set_get_roundtrip (now now2 : Nat) (key : String) (v : JsonValue)
    (ttl : Option Int) (st : Store)
    (_hkey : validateKey key = .ok ())
    (_httl : ∀ t, ttl = some t → validateTtl t = .ok ())
    (hlive : ∀ t, ttl = some t → now2 < now + t.toNat)
    (hstr : ∀ s, v = .str s → jsonAccepts s = false) :
    getBody now2 key none (setBody now key v ttl st).2 = sanitizeParsedValue v := by
  rw [getBody_setBody now now2 key v ttl st hlive]
  exact deserializeStored_serialize v hstr

/-- Claim C6, witness. The string `"X"` (rejected by the JSON grammar)
round-trips through a 60-second entry unchanged. -/
theorem c6_set_get_roundtrip_witness :
    validateKey "k" = .ok () ∧
    validateTtl 60 = .ok () ∧
    jsonAccepts "X" = false ∧
    getBody 30 "k" none (setBody 0 "k" (.str "X") (some 60) []).2 =
      sanitizeParsedValue (.str "X") := by
  refine ⟨rfl, rfl, rfl, ?_⟩
  exact c6_set_get_roundtrip 0 30 "k" (.str "X") (some 60) [] rfl
    (by intro t ht; cases ht; rfl)
    (by intro t ht; cases ht; decide)
    (by intro s hs; cases hs; rfl)


/-- Claim C9, counterexample. `getOrSet("k", factory)` where the factory
returns the string `"123"` on an empty healthy cache: the call returns
`"123"` with the factory invoked once, but a subsequent successful
`get("k")` returns the *number* `123`, not the stored result. -/
theorem c9_counterexample_subsequent_get :
    getOrSetRun 0 "k" (.str "123") none none (.healthy []) =
      .ok (.str "123", 1, .healthy [("k", { value := "123" })]) ∧
    gracefulGet 0 "k" (.healthy [("k", { value := "123" })]) = .num 123 ∧
    JsonValue.num 123 ≠ .str "123" := by
  refine ⟨rfl, rfl, ?_⟩
  intro h
  exact JsonValue.noConfusion h

/-- Claim C9, amended. When the forced-graceful initial read of
`getOrSet` yields a miss (including when the cache is unavailable),
the factory is invoked exactly once and its value is returned
regardless of whether the best-effort store succeeded; on a healthy
cache a subsequent `get` before the ttl elapses returns the factory
value modulo sanitization whenever that value is not a string the
JSON grammar accepts (a string `JSON.parse` accepts is instead
re-interpreted as the parsed JSON value, as the counterexample
shows). -/
theorem c9_getOrSet_miss (now : Nat) (key : String) (factoryValue : JsonValue)
    (ttl : Option Int) (isValid : Option (JsonValue → Bool)) (w : CacheWorld)
    (hkey : validateKey key = .ok ())
    (httl : ∀ t, ttl = some t → validateTtl t = .ok ())
    (hmiss : gracefulGet now key w = .null) :
    getOrSetRun now key factoryValue ttl isValid w =
      .ok (factoryValue, 1, (gracefulSet now key factoryValue ttl w).2) ∧
    (∀ st now2, w = .healthy st → (∀ t, ttl = some t → now2 < now + t.toNat) →
      (∀ s, factoryValue = .str s → jsonAccepts s = false) →
      gracefulGet now2 key (gracefulSet now key factoryValue ttl w).2 =
        sanitizeParsedValue factoryValue) := by
  have hcore : getOrSetRun.getOrSetCore now key factoryValue ttl isValid w =
      (factoryValue, 1, (gracefulSet now key factoryValue ttl w).2) := by
    unfold getOrSetRun.getOrSetCore
    simp [hmiss, isNullValue]
  refine ⟨?_, ?_⟩
  · unfold getOrSetRun
    cases ttl with
    | none => simp [hkey, hcore]
    | some t => simp [hkey, httl t rfl, hcore]
  · intro st now2 hw hlive hstr
    subst hw
    show gracefulGet now2 key (CacheWorld.healthy (setBody now key factoryValue ttl st).2) = _
    show getBody now2 key none (setBody now key factoryValue ttl st).2 = _
    rw [getBody_setBody now now2 key factoryValue ttl st hlive]
    exact deserializeStored_serialize factoryValue hstr

/-- Claim C9, witness. A factory returning `"X"` on an empty healthy
cache: returned once, stored, and read back as `"X"`. -/
theorem c9_getOrSet_miss_witness :
    gracefulGet 0 "k" (.healthy []) = .null ∧
    getOrSetRun 0 "k" (.str "X") none none (.healthy []) =
      .ok (.str "X", 1, (gracefulSet 0 "k" (.str "X") none (.healthy [])).2) ∧
    gracefulGet 5 "k" (gracefulSet 0 "k" (.str "X") none (.healthy [])).2 =
      sanitizeParsedValue (.str "X") := by
  have h := c9_getOrSet_miss 0 "k" (.str "X") none none (.healthy []) rfl
    (by intro t ht; cases ht) rfl
  exact ⟨rfl, h.1,
    h.2 [] 5 rfl (by intro t ht; cases ht) (by intro s hs; cases hs; rfl)⟩


/-! ## Claim C7: prefix deletion -/

theorem globMatch_star_all : ∀ s : List Char, globMatch ['*'] s = true := by
  intro s
  induction s with
  | nil => rw [globMatch]; simp [globMatch]
  | cons c s ih => rw [globMatch]; simp [globMatch, ih]

theorem globMatch_lit_star (lit : List Char)
    (hmeta : ∀ c ∈ lit, c ≠ '*' ∧ c ≠ '?') :
    ∀ s, globMatch (lit ++ ['*']) s = startsWithChars s lit := by
  induction lit with
  | nil =>
    intro s
    simp [globMatch_star_all, startsWithChars]
  | cons c lit ih =>
    intro s
    obtain ⟨hc1, hc2⟩ := hmeta c (by simp)
    have ihall : ∀ x ∈ lit, x ≠ '*' ∧ x ≠ '?' := fun x hx => hmeta x (by simp [hx])
    cases s with
    | nil =>
      rw [List.cons_append, globMatch]
      · simp [startsWithChars]
      · exact hc1
      · exact hc2
    | cons d s2 =>
      rw [List.cons_append, globMatch]
      · by_cases hdc : c = d
        · subst hdc
          simp [startsWithChars, ih ihall s2]
        · have hdc2 : d ≠ c := fun h => hdc h.symm
          simp [startsWithChars, hdc, hdc2]
      · exact hc1
      · exact hc2


theorem startsWithChars_append_left : ∀ (a b s : List Char),
    startsWithChars s (a ++ b) = true → startsWithChars s a = true := by
  intro a
  induction a with
  | nil =>
    intro b s _
    simp [startsWithChars]
  | cons c a ih =>
    intro b s h
    cases s with
    | nil => simp [startsWithChars] at h
    | cons d s2 =>
      simp only [List.cons_append, startsWithChars, Bool.and_eq_true] at h ⊢
      exact ⟨h.1, ih b s2 h.2⟩

/-- Claim C7, counterexample. On the store holding the single key
`"app:production:1"`, `removeByPrefix("app:prod:*")` deletes 1 key
while `removeByPrefix("app:prod:")` deletes 0 — the two calls are not
equivalent, and the key deleted by the former does not have the
literal prefix `"app:prod:"`.  The in-memory mock behaves the same
way. -/
theorem c7_counterexample_sibling_key :
    (removeByPrefixBody "app:prod:*" [("app:production:1", { value := "x" })]).1 = 1 ∧
    (removeByPrefixBody "app:prod:" [("app:production:1", { value := "x" })]).1 = 0 ∧
    (mockRemoveByPrefix "app:prod:*" [("app:production:1", { value := "x" })]).1 = 1 ∧
    (mockRemoveByPrefix "app:prod:" [("app:production:1", { value := "x" })]).1 = 0 ∧
    startsWithChars "app:production:1".data "app:prod:".data = false := by
  have hn1 : normalizeByPrefixArg "app:prod:" = "app:prod:" := rfl
  have hn2 : normalizeByPrefixArg "app:prod:*" = "app:prod" := rfl
  have h1 := globMatch_lit_star "app:prod:".data (by decide)
  have h2 := globMatch_lit_star "app:prod".data (by decide)
  simp at h1 h2
  refine ⟨?_, ?_, rfl, rfl, rfl⟩
  · simp [removeByPrefixBody, hn2, h2]
    decide
  · simp [removeByPrefixBody, hn1, h1]
    decide

/-- Claim C7, amended. `removeByPrefix("app:prod:")` deletes exactly
the keys with literal prefix `"app:prod:"`; `removeByPrefix("app:prod:*")`
strips the trailing `:*` — colon included — and therefore deletes
exactly the keys with literal prefix `"app:prod"`.  Every key with the
prefix `"app:prod:"` is deleted by both calls, and the mock agrees
with the client on both; but the wildcard form can delete sibling keys
such as `"app:production:1"` that the bare form keeps. -/
theorem c7_removeByPrefix_characterization (st : Store) :
    removeByPrefixBody "app:prod:" st =
      (((st.filter fun kv => startsWithChars kv.1.data "app:prod:".data).length : Int),
        st.filter fun kv => !startsWithChars kv.1.data "app:prod:".data) ∧
    removeByPrefixBody "app:prod:*" st =
      (((st.filter fun kv => startsWithChars kv.1.data "app:prod".data).length : Int),
        st.filter fun kv => !startsWithChars kv.1.data "app:prod".data) ∧
    mockRemoveByPrefix "app:prod:" st = removeByPrefixBody "app:prod:" st ∧
    mockRemoveByPrefix "app:prod:*" st = removeByPrefixBody "app:prod:*" st ∧
    (∀ key : String, startsWithChars key.data "app:prod:".data = true →
      startsWithChars key.data "app:prod".data = true) := by
  have h1 := globMatch_lit_star "app:prod:".data (by decide)
  have h2 := globMatch_lit_star "app:prod".data (by decide)
  have hn1 : normalizeByPrefixArg "app:prod:" = "app:prod:" := rfl
  have hn2 : normalizeByPrefixArg "app:prod:*" = "app:prod" := rfl
  simp at h1 h2
  refine ⟨?_, ?_, ?_, ?_, ?_⟩
  · simp [removeByPrefixBody, hn1, h1]
  · simp [removeByPrefixBody, hn2, h2]
  · simp [mockRemoveByPrefix, removeByPrefixBody, hn1, h1]
  · simp [mockRemoveByPrefix, removeByPrefixBody, hn2, h2]
  · intro key h
    have heq : ("app:prod:".data : List Char) = "app:prod".data ++ [':'] := by decide
    rw [heq] at h
    exact startsWithChars_append_left _ _ _ h

end ResilientCache
